import Mathlib

/-!
Verification of the `jpgfromraw` embedded-JPEG scanner and assembler.

The Rust source (`src/parser/mod.rs`, `src/main.rs`) is embedded shallowly:

* byte buffers are `List Nat` (each element a byte value `< 256`);
* the memory-mapped reads `read_u16` / `read_u32` of the `byteorder` crate
  become `readU16At` / `readU32At` over `List.getD`;
* the `while next_ifd_offset != 0` loop of `find_largest_embedded_jpeg`
  becomes the fuel-indexed recursion `walkIfds`; `none` means the fuel ran
  out (the Rust loop has made that many iterations without returning);
* fallible Rust code returns `Except String`, and a Rust slice index that
  would abort the process out of bounds is modelled by an outer `Option`
  (`none` = the Rust code aborts rather than returning anything).
-/

namespace JpgFromRaw

/-- `EmbeddedJpegInfo` from `src/parser/mod.rs`: offset and length of the
embedded JPEG plus the optional EXIF orientation. -/
structure EmbeddedJpegInfo where
  offset : Nat
  length : Nat
  orientation : Option Nat
deriving DecidableEq

/-- `EmbeddedJpegInfo::default()` — the all-zero sentinel meaning "nothing
found yet". -/
def emptyInfo : EmbeddedJpegInfo := ⟨0, 0, none⟩

/-- `FindJpegType` from `src/parser/mod.rs`. -/
inductive FindJpegType
  | Largest
  | Smallest
deriving DecidableEq

/-- `byteorder::{Little,Big}Endian::read_u16` applied at absolute index `i`
of the buffer.  Out-of-range reads default to byte 0; in the scanner every
read is guarded by an `ensure!` bound check before it happens. -/
def readU16At (isLE : Bool) (buf : List Nat) (i : Nat) : Nat :=
  if isLE then buf.getD i 0 + 256 * buf.getD (i + 1) 0
  else 256 * buf.getD i 0 + buf.getD (i + 1) 0

/-- `byteorder::{Little,Big}Endian::read_u32` applied at absolute index `i`. -/
def readU32At (isLE : Bool) (buf : List Nat) (i : Nat) : Nat :=
  if isLE then
    buf.getD i 0 + 256 * buf.getD (i + 1) 0 + 65536 * buf.getD (i + 2) 0 +
      16777216 * buf.getD (i + 3) 0
  else
    16777216 * buf.getD i 0 + 65536 * buf.getD (i + 1) 0 + 256 * buf.getD (i + 2) 0 +
      buf.getD (i + 3) 0

/-- The selection step of `find_largest_embedded_jpeg` (the
`match find_type { ... }` block executed once a complete offset/length pair
is seen at an IFD entry): replace the running best candidate `best` by the
new candidate if the policy's comparison accepts it. -/
def applyPolicy (ft : FindJpegType) (best : EmbeddedJpegInfo) (offset length : Nat)
    (orientation : Option Nat) : EmbeddedJpegInfo :=
  match ft with
  | .Smallest =>
      if length < best.length ∨ best.length = 0 then ⟨offset, length, orientation⟩ else best
  | .Largest =>
      if best.length < length then ⟨offset, length, orientation⟩ else best

/-- The `for entry in entries_cursor.chunks_exact(12).take(num_entries)`
loop of `find_largest_embedded_jpeg`: scan `n` 12-byte entries starting at
absolute position `pos` of `tbuf`, tracking `cur_offset` / `cur_length` /
`cur_orientation`, and stop (`break`) at the first entry where both the
JPEG-pointer tag 0x0201 and the JPEG-length tag 0x0202 have been seen,
applying the selection policy there. -/
def scanEntries (isLE : Bool) (tbuf : List Nat) (ft : FindJpegType)
    (best : EmbeddedJpegInfo) :
    Nat → Option Nat → Option Nat → Option Nat → Nat → EmbeddedJpegInfo
  | _, _, _, _, 0 => best
  | pos, co, cl, cor, n + 1 =>
    let tag := readU16At isLE tbuf pos
    if tag = 0x201 then
      let o := readU32At isLE tbuf (pos + 8)
      match cl with
      | some l => applyPolicy ft best o l cor
      | none => scanEntries isLE tbuf ft best (pos + 12) (some o) none cor n
    else if tag = 0x202 then
      let l := readU32At isLE tbuf (pos + 8)
      match co with
      | some o => applyPolicy ft best o l cor
      | none => scanEntries isLE tbuf ft best (pos + 12) none (some l) cor n
    else if tag = 0x112 then
      let w := readU16At isLE tbuf (pos + 8)
      match co, cl with
      | some o, some l => applyPolicy ft best o l (some w)
      | co1, cl1 => scanEntries isLE tbuf ft best (pos + 12) co1 cl1 (some w) n
    else
      match co, cl with
      | some o, some l => applyPolicy ft best o l cor
      | co1, cl1 => scanEntries isLE tbuf ft best (pos + 12) co1 cl1 cor n

/-- The `while next_ifd_offset != 0` loop of `find_largest_embedded_jpeg`,
fuel-indexed.  `pos` is the current IFD offset relative to the TIFF header,
`best` the running best candidate (`largest_jpeg` in the source).  Returns
`none` when the fuel is exhausted, i.e. the Rust loop has run for at least
`fuel` iterations without leaving the loop. -/
def walkIfds (isLE : Bool) (tbuf : List Nat) (ft : FindJpegType) :
    Nat → Nat → EmbeddedJpegInfo → Option (Except String EmbeddedJpegInfo)
  | 0, _, _ => none
  | fuel + 1, pos, best =>
    if pos = 0 then some (Except.ok best)
    else if ¬ (pos + 2 ≤ tbuf.length) then some (Except.error "Invalid IFD offset")
    else
      let n := readU16At isLE tbuf pos
      if ¬ (n * 12 ≤ tbuf.length - (pos + 2)) then
        some (Except.error "Invalid number of IFD entries")
      else
        let best' := scanEntries isLE tbuf ft best (pos + 2) none none none n
        if ¬ (2 + n * 12 + 4 ≤ tbuf.length - pos) then
          some (Except.error "Invalid next IFD offset")
        else walkIfds isLE tbuf ft fuel (readU32At isLE tbuf (pos + 2 + n * 12)) best'

/-- The code of `find_largest_embedded_jpeg` after the endianness has been
determined: read the first IFD offset from header bytes 4..8, walk the IFD
chain, then apply the two final `ensure!` checks and translate the winning
offset from TIFF-relative to buffer-relative by adding `tiff_offset`. -/
def findPost (tbuf : List Nat) (tiff_offset : Nat) (isLE : Bool) (ft : FindJpegType)
    (fuel : Nat) : Option (Except String EmbeddedJpegInfo) :=
  match walkIfds isLE tbuf ft fuel (readU32At isLE tbuf 4) emptyInfo with
  | none => none
  | some (Except.error e) => some (Except.error e)
  | some (Except.ok best) =>
    if best = emptyInfo then some (Except.error "No JPEG data found")
    else if ¬ (best.offset + best.length ≤ tbuf.length) then
      some (Except.error "JPEG data exceeds file size")
    else some (Except.ok ⟨best.offset + tiff_offset, best.length, best.orientation⟩)

/-- `find_largest_embedded_jpeg` from `src/parser/mod.rs`: slice the buffer
at `tiff_offset`, check the 8-byte TIFF header and its magic (little-endian
`II*\0` = `[73,73,42,0]` or big-endian `MM\0*` = `[77,77,0,42]`), then scan
the IFD chain.  `fuel` bounds the number of `while`-loop iterations; `none`
means the loop was still running after `fuel` iterations. -/
def find_largest_embedded_jpeg (buf : List Nat) (tiff_offset : Nat) (ft : FindJpegType)
    (fuel : Nat) : Option (Except String EmbeddedJpegInfo) :=
  let tbuf := buf.drop tiff_offset
  if ¬ (8 ≤ tbuf.length) then some (Except.error "Not enough data for TIFF header")
  else if tbuf.take 4 = [73, 73, 42, 0] then findPost tbuf tiff_offset true ft fuel
  else if tbuf.take 4 = [77, 77, 0, 42] then findPost tbuf tiff_offset false ft fuel
  else some (Except.error "Not a valid TIFF file")

/-- `extract_jpeg` from `src/parser/mod.rs`: the slice
`&raw_buf[jpeg.offset..jpeg.offset + jpeg.length]`.  An out-of-bounds range
would abort the Rust process, modelled by `none` (the prefetch hint is a
no-op for the bytes produced). -/
def extract_jpeg (buf : List Nat) (info : EmbeddedJpegInfo) : Option (List Nat) :=
  if info.offset + info.length ≤ buf.length then
    some ((buf.drop info.offset).take info.length)
  else none

/-- `get_header_bytes` from `src/parser/mod.rs`: the fixed 34-byte
SOI + APP1/Exif header with the orientation value encoded little-endian in
the single IFD entry's value field. -/
def get_header_bytes (orientation : Nat) : List Nat :=
  [0xff, 0xd8,
   0xff, 0xe1,
   0x00, 0x1e,
   0x45, 0x78, 0x69, 0x66, 0x00, 0x00,
   0x49, 0x49, 0x2A, 0x00,
   0x08, 0x00, 0x00, 0x00,
   0x01, 0x00,
   0x12, 0x01,
   0x03, 0x00,
   0x01, 0x00, 0x00, 0x00,
   orientation % 256, orientation / 256 % 256,
   0x00, 0x00]

/-- `get_jpeg_data` from `src/parser/mod.rs`: synthetic header (orientation
defaulted to 1) followed by `&jpeg_buf[2..]`.  Slicing a buffer of fewer
than 2 bytes from index 2 aborts the Rust process: modelled by `none`. -/
def get_jpeg_data (jpeg_buf : List Nat) (orientation : Option Nat) : Option (List Nat) :=
  if 2 ≤ jpeg_buf.length then
    some (get_header_bytes (orientation.getD 1) ++ jpeg_buf.drop 2)
  else none

/-- `memmem::find_iter(raw_buf, EXIF_HEADER).next()` from
`find_tiff_header_offset`: index of the first occurrence of the 6-byte
marker `Exif\0\0`. -/
def find_exif (buf : List Nat) : Option Nat :=
  (List.range buf.length).find? (fun p => (buf.drop p).take 6 = [69, 120, 105, 102, 0, 0])

/-- `find_tiff_header_offset` from `src/parser/mod.rs`.  The outer `Option`
models the Rust slice `&raw_buf[0..4]`, which aborts the process when the
buffer holds fewer than 4 bytes; the inner `Option` is the `Result`
(`none` = the `Err` "No Exif APP1 segment with TIFF header found"). -/
def find_tiff_header_offset (buf : List Nat) : Option (Option Nat) :=
  if buf.length < 4 then none
  else if buf.take 4 = [73, 73, 42, 0] then some (some 0)
  else
    match find_exif buf with
    | some p => some (some (p + 6))
    | none => some none

/-- The tail of `process_file_bytes` after the TIFF header offset has been
determined: scan, extract, assemble. -/
def pipeline_after_header (buf : List Nat) (tiff_offset : Nat) (ft : FindJpegType)
    (fuel : Nat) : Option (Except String (List Nat)) :=
  match find_largest_embedded_jpeg buf tiff_offset ft fuel with
  | none => none
  | some (Except.error e) => some (Except.error e)
  | some (Except.ok info) =>
    match extract_jpeg buf info with
    | none => none
    | some jpeg_buf =>
      match get_jpeg_data jpeg_buf info.orientation with
      | none => none
      | some out => some (Except.ok out)

/-- `process_file_bytes` from `src/parser/mod.rs`, modelled from the mapped
bytes onward: locate the TIFF header (`if let Ok(offset) = ... else 0`),
then run the scanner, extractor and assembler.  `none` = the Rust process
aborts (out-of-bounds slice) or the scanner loop exceeds `fuel` iterations. -/
def process_file_bytes (buf : List Nat) (ft : FindJpegType) (fuel : Nat) :
    Option (Except String (List Nat)) :=
  match find_tiff_header_offset buf with
  | none => none
  | some r => pipeline_after_header buf (r.getD 0) ft fuel

/-- ASCII uppercase of one character, the effect of Rust's
`str::to_uppercase` on the ASCII-only extension strings. -/
def asciiUpperChar (c : Char) : Char :=
  if 97 ≤ c.toNat ∧ c.toNat ≤ 122 then Char.ofNat (c.toNat - 32) else c

/-- ASCII lowercase of one character. -/
def asciiLowerChar (c : Char) : Char :=
  if 65 ≤ c.toNat ∧ c.toNat ≤ 90 then Char.ofNat (c.toNat + 32) else c

/-- ASCII uppercase of a string (`str::to_uppercase` on ASCII input). -/
def strUpper (s : String) : String := String.mk (s.data.map asciiUpperChar)

/-- ASCII lowercase of a string. -/
def strLower (s : String) : String := String.mk (s.data.map asciiLowerChar)

/-- The default RAW extension allow-list of `process_directory` in
`src/main.rs`. -/
def default_extensions : List String :=
  ["arw", "cr2", "crw", "dng", "erf", "kdc", "mef", "mrw", "nef", "nrw", "orf", "pef",
   "raf", "raw", "rw2", "rwl", "sr2", "srf", "srw", "x3f"]

/-- The `valid_extensions` set built in `process_directory`: each default
extension together with its `to_uppercase()` form, plus the optional extra
extension exactly as the caller configured it. -/
def valid_extensions (extra : Option String) : List String :=
  (default_extensions.flatMap (fun e => [e, strUpper e])) ++
    (match extra with
     | some e => [e]
     | none => [])

/-- The file filter of `process_directory`: a file is accepted when its
extension is a member of the `valid_extensions` set. -/
def accepts_extension_code (extra : Option String) (ext : String) : Prop :=
  ext ∈ valid_extensions extra

instance (extra : Option String) (ext : String) :
    Decidable (accepts_extension_code extra ext) := by
  unfold accepts_extension_code; infer_instance

/-- Modelled from the spec: the acceptance rule as the specification words
it — the extension "matches a case-insensitive default allow-list ...
unioned with any single extra extension the caller configured". -/
def accepts_extension_spec (extra : Option String) (ext : String) : Prop :=
  strLower ext ∈ default_extensions ∨ extra = some ext

instance (extra : Option String) (ext : String) :
    Decidable (accepts_extension_spec extra ext) := by
  unfold accepts_extension_spec; infer_instance

/-! ## Synthetic TIFF buffers

Builders for the test buffers the claims quantify over: byte encodings of
16/32-bit values, IFD entries and IFD chains.  These mirror the TIFF layout
the scanner reads, parameterised by endianness. -/

/-- Little- or big-endian byte encoding of a 16-bit value. -/
def encU16 (isLE : Bool) (v : Nat) : List Nat :=
  if isLE then [v % 256, v / 256 % 256] else [v / 256 % 256, v % 256]

/-- Little- or big-endian byte encoding of a 32-bit value. -/
def encU32 (isLE : Bool) (v : Nat) : List Nat :=
  if isLE then [v % 256, v / 256 % 256, v / 65536 % 256, v / 16777216 % 256]
  else [v / 16777216 % 256, v / 65536 % 256, v / 256 % 256, v % 256]

/-- An IFD entry of a synthetic TIFF buffer: the JPEG-pointer tag 0x0201,
the JPEG-length tag 0x0202, the orientation tag 0x0112 (a SHORT, stored in
the first two bytes of the value field), or any other entry with an
arbitrary 10-byte remainder. -/
inductive TestEntry
  | ptr (v : Nat)
  | len (v : Nat)
  | orient (v : Nat)
  | other (tag : Nat) (body : List Nat)
deriving DecidableEq

/-- Well-formedness of a synthetic IFD entry: values fit their declared
width, and an `other` entry carries a tag distinct from the three
recognized ones together with exactly 10 further bytes. -/
def TestEntry.wf : TestEntry → Prop
  | .ptr v => v < 4294967296
  | .len v => v < 4294967296
  | .orient v => v < 65536
  | .other t body => t < 65536 ∧ t ≠ 0x201 ∧ t ≠ 0x202 ∧ t ≠ 0x112 ∧ body.length = 10

instance (e : TestEntry) : Decidable e.wf := by
  cases e <;> (unfold TestEntry.wf; infer_instance)

/-- 12-byte encoding of a synthetic IFD entry (tag, type, count, value). -/
def encodeEntry (isLE : Bool) : TestEntry → List Nat
  | .ptr v => encU16 isLE 0x201 ++ encU16 isLE 4 ++ encU32 isLE 1 ++ encU32 isLE v
  | .len v => encU16 isLE 0x202 ++ encU16 isLE 4 ++ encU32 isLE 1 ++ encU32 isLE v
  | .orient v => encU16 isLE 0x112 ++ encU16 isLE 3 ++ encU32 isLE 1 ++ (encU16 isLE v ++ [0, 0])
  | .other t body => encU16 isLE t ++ body

/-- Concatenated encoding of a list of synthetic IFD entries. -/
def encodeEntries (isLE : Bool) : List TestEntry → List Nat
  | [] => []
  | e :: rest => encodeEntry isLE e ++ encodeEntries isLE rest

/-- The 8-byte TIFF header (magic plus first-IFD offset 8). -/
def tiffHeaderBytes (isLE : Bool) : List Nat :=
  (if isLE then [73, 73, 42, 0] else [77, 77, 0, 42]) ++ encU32 isLE 8

/-- A TIFF buffer holding a single IFD with the given entries, a zero
next-IFD terminator, and arbitrary trailing bytes `pad`. -/
def buildSingleIfd (isLE : Bool) (es : List TestEntry) (pad : List Nat) : List Nat :=
  tiffHeaderBytes isLE ++ encU16 isLE es.length ++ encodeEntries isLE es ++
    encU32 isLE 0 ++ pad

/-- An IFD chain with one IFD per candidate `(offset, length)` pair, laid
out consecutively starting at position `pos`; each IFD holds exactly the
pointer and length entries (30 bytes in total) and links to the next, the
last one linking to 0. -/
def chainFrom (isLE : Bool) : Nat → List (Nat × Nat) → List Nat
  | _, [] => []
  | pos, c :: rest =>
    encU16 isLE 2 ++ encodeEntries isLE [.ptr c.1, .len c.2] ++
      encU32 isLE (if rest = [] then 0 else pos + 30) ++ chainFrom isLE (pos + 30) rest

/-- A TIFF buffer whose IFD chain declares the given candidates. -/
def buildChain (isLE : Bool) (cs : List (Nat × Nat)) (pad : List Nat) : List Nat :=
  tiffHeaderBytes isLE ++ chainFrom isLE 8 cs ++ pad

/-- The exact byte sequence of the spec's single-IFD scenario: little-endian
TIFF header, entry count bytes `01 00`, a pointer entry (value 0x10), a
length entry (value 5), and a zero next-IFD terminator. -/
def scenarioBuf : List Nat :=
  [0x49, 0x49, 0x2A, 0x00, 0x08, 0x00, 0x00, 0x00,
   0x01, 0x00,
   0x01, 0x02, 0x03, 0x00, 0x01, 0x00, 0x00, 0x00, 0x10, 0x00, 0x00, 0x00,
   0x02, 0x02, 0x03, 0x00, 0x01, 0x00, 0x00, 0x00, 0x05, 0x00, 0x00, 0x00,
   0x00, 0x00, 0x00, 0x00]

/-- The spec's scenario buffer with the entry count corrected to `02 00`,
so that both declared entries are inside the IFD's entry table. -/
def scenarioBufTwoEntries : List Nat :=
  [0x49, 0x49, 0x2A, 0x00, 0x08, 0x00, 0x00, 0x00,
   0x02, 0x00,
   0x01, 0x02, 0x03, 0x00, 0x01, 0x00, 0x00, 0x00, 0x10, 0x00, 0x00, 0x00,
   0x02, 0x02, 0x03, 0x00, 0x01, 0x00, 0x00, 0x00, 0x05, 0x00, 0x00, 0x00,
   0x00, 0x00, 0x00, 0x00]

/-- Pure counterpart of `scanEntries` over decoded synthetic entries: the
entry loop as a function of the entry list instead of the byte buffer. -/
def scanT (ft : FindJpegType) (best : EmbeddedJpegInfo) :
    Option Nat → Option Nat → Option Nat → List TestEntry → EmbeddedJpegInfo
  | _, _, _, [] => best
  | _, cl, cor, .ptr v :: rest =>
    match cl with
    | some l => applyPolicy ft best v l cor
    | none => scanT ft best (some v) none cor rest
  | co, _, cor, .len v :: rest =>
    match co with
    | some o => applyPolicy ft best o v cor
    | none => scanT ft best none (some v) cor rest
  | co, cl, _, .orient v :: rest =>
    match co, cl with
    | some o, some l => applyPolicy ft best o l (some v)
    | co1, cl1 => scanT ft best co1 cl1 (some v) rest
  | co, cl, cor, .other _ _ :: rest =>
    match co, cl with
    | some o, some l => applyPolicy ft best o l cor
    | co1, cl1 => scanT ft best co1 cl1 cor rest

/-- The selection fold the chain walk performs over the candidates it
encounters, one `applyPolicy` step per IFD. -/
def foldPolicy (ft : FindJpegType) : EmbeddedJpegInfo → List (Nat × Nat) → EmbeddedJpegInfo
  | best, [] => best
  | best, c :: rest => foldPolicy ft (applyPolicy ft best c.1 c.2 none) rest

/-- One link traversal of the IFD chain: from current offset `pos`, `none`
when the `while` loop of `find_largest_embedded_jpeg` would stop there
(offset zero, or one of the three `ensure!` bound checks fails), otherwise
the next IFD offset it reads.  The branch conditions are those of
`walkIfds` verbatim. -/
def ifdNext (isLE : Bool) (tbuf : List Nat) (pos : Nat) : Option Nat :=
  if pos = 0 then none
  else if ¬ (pos + 2 ≤ tbuf.length) then none
  else
    let n := readU16At isLE tbuf pos
    if ¬ (n * 12 ≤ tbuf.length - (pos + 2)) then none
    else if ¬ (2 + n * 12 + 4 ≤ tbuf.length - pos) then none
    else some (readU32At isLE tbuf (pos + 2 + n * 12))

/-- The chain of next-IFD offsets starting at `pos` reaches a stopping
point of the `while` loop within `k` link traversals. -/
def chainStops (isLE : Bool) (tbuf : List Nat) : Nat → Nat → Prop
  | 0, pos => ifdNext isLE tbuf pos = none
  | k + 1, pos =>
    match ifdNext isLE tbuf pos with
    | none => True
    | some q => chainStops isLE tbuf k q

/-- An adversarial buffer whose single IFD (zero entries) lists itself as
the next IFD: the chain `8 → 8 → 8 → ...` never reaches offset zero. -/
def cyclicBuf : List Nat :=
  [0x49, 0x49, 0x2A, 0x00, 0x08, 0x00, 0x00, 0x00,
   0x00, 0x00,
   0x08, 0x00, 0x00, 0x00]

/-- A buffer whose single IFD declares the candidate offset 0 / length 0:
the recorded candidate coincides with the `default()` sentinel. -/
def zeroCandBuf : List Nat := buildSingleIfd true [.ptr 0, .len 0] []

/-- A buffer whose single IFD declares a JPEG region of length 1 at
offset 16. -/
def len1Buf : List Nat := buildSingleIfd true [.ptr 16, .len 1] []

/-- A buffer whose single IFD declares the orientation entry after the
pointer/length pair. -/
def orientAfterBuf : List Nat := buildSingleIfd true [.ptr 16, .len 5, .orient 3] []

/-- A two-IFD chain declaring candidates of lengths 0 and 5. -/
def zeroThenFiveBuf : List Nat := buildChain true [(40, 0), (50, 5)] []

/-- The tag stored in a synthetic entry. -/
def entryTag : TestEntry → Nat
  | .ptr _ => 0x201
  | .len _ => 0x202
  | .orient _ => 0x112
  | .other t _ => t

/-- Entries built with the `other` constructor (any non-recognized tag). -/
def TestEntry.isOther : TestEntry → Prop
  | .other _ _ => True
  | _ => False

/-- The optional orientation entry of a synthetic IFD. -/
def orientEntries : Option Nat → List TestEntry
  | some v => [.orient v]
  | none => []

/-- The entry table of the C1 family of single-IFD buffers: unrecognized
entries `o1`, an optional orientation entry, unrecognized entries `o2`, the
pointer/length pair (in either order, unrecognized entries `o3` between its
two members), and arbitrary further entries `rest` after the pair is
complete. -/
def c1Entries (ptrFirst : Bool) (ov : Option Nat) (po le : Nat)
    (o1 o2 o3 rest : List TestEntry) : List TestEntry :=
  o1 ++ (orientEntries ov ++ (o2 ++
    (if ptrFirst then TestEntry.ptr po :: (o3 ++ (TestEntry.len le :: rest))
     else TestEntry.len le :: (o3 ++ (TestEntry.ptr po :: rest)))))


/-! ## Reading back the byte encodings -/

theorem getD_append_right (pre rest : List Nat) (k : Nat) :
    (pre ++ rest).getD (pre.length + k) 0 = rest.getD k 0 := by
  induction pre with
  | nil => simp
  | cons a pre ih => simpa [Nat.succ_add] using ih

theorem readU16At_append (isLE : Bool) (pre l : List Nat) :
    readU16At isLE (pre ++ l) pre.length = readU16At isLE l 0 := by
  have h0 := getD_append_right pre l 0
  rw [Nat.add_zero] at h0
  have h1 := getD_append_right pre l 1
  unfold readU16At
  rw [h0, h1]

theorem readU32At_append (isLE : Bool) (pre l : List Nat) :
    readU32At isLE (pre ++ l) pre.length = readU32At isLE l 0 := by
  have h0 := getD_append_right pre l 0
  rw [Nat.add_zero] at h0
  have h1 := getD_append_right pre l 1
  have h2 := getD_append_right pre l 2
  have h3 := getD_append_right pre l 3
  unfold readU32At
  rw [h0, h1, h2, h3]

theorem readU16At_enc0 (rest : List Nat) (v : Nat) :
    ∀ isLE, readU16At isLE (encU16 isLE v ++ rest) 0 = v % 65536
  | true => by
      show v % 256 + 256 * (v / 256 % 256) = v % 65536
      omega
  | false => by
      show 256 * (v / 256 % 256) + v % 256 = v % 65536
      omega

theorem readU32At_enc0 (rest : List Nat) (v : Nat) :
    ∀ isLE, readU32At isLE (encU32 isLE v ++ rest) 0 = v % 4294967296
  | true => by
      show v % 256 + 256 * (v / 256 % 256) + 65536 * (v / 65536 % 256) +
        16777216 * (v / 16777216 % 256) = v % 4294967296
      omega
  | false => by
      show 16777216 * (v / 16777216 % 256) + 65536 * (v / 65536 % 256) +
        256 * (v / 256 % 256) + v % 256 = v % 4294967296
      omega

theorem readU16At_enc (isLE : Bool) (pre rest : List Nat) (v : Nat) :
    readU16At isLE (pre ++ (encU16 isLE v ++ rest)) pre.length = v % 65536 := by
  rw [readU16At_append, readU16At_enc0]

theorem readU32At_enc (isLE : Bool) (pre rest : List Nat) (v : Nat) :
    readU32At isLE (pre ++ (encU32 isLE v ++ rest)) pre.length = v % 4294967296 := by
  rw [readU32At_append, readU32At_enc0]

/-! ## Entry encodings seen through the scanner's reads -/

theorem encU16_length (isLE : Bool) (v : Nat) : (encU16 isLE v).length = 2 := by
  cases isLE <;> rfl

theorem encU32_length (isLE : Bool) (v : Nat) : (encU32 isLE v).length = 4 := by
  cases isLE <;> rfl


theorem encodeEntry_length (isLE : Bool) (e : TestEntry) (h : e.wf) :
    (encodeEntry isLE e).length = 12 := by
  cases e <;>
    simp_all [encodeEntry, TestEntry.wf, encU16_length, encU32_length]

theorem encodeEntries_length (isLE : Bool) (es : List TestEntry) (h : ∀ e ∈ es, e.wf) :
    (encodeEntries isLE es).length = 12 * es.length := by
  induction es with
  | nil => rfl
  | cons e rest ih =>
    simp only [encodeEntries, List.length_append, List.length_cons]
    rw [encodeEntry_length isLE e (h e (by simp)), ih (fun x hx => h x (by simp [hx]))]
    ring

theorem entry_tag_read (isLE : Bool) (pre post : List Nat) (e : TestEntry) (h : e.wf) :
    readU16At isLE (pre ++ (encodeEntry isLE e ++ post)) pre.length = entryTag e := by
  cases e with
  | ptr v =>
    have heq : pre ++ (encodeEntry isLE (.ptr v) ++ post) =
        pre ++ (encU16 isLE 0x201 ++
          (encU16 isLE 4 ++ (encU32 isLE 1 ++ (encU32 isLE v ++ post)))) := by
      simp [encodeEntry, List.append_assoc]
    rw [heq, readU16At_enc]
    rfl
  | len v =>
    have heq : pre ++ (encodeEntry isLE (.len v) ++ post) =
        pre ++ (encU16 isLE 0x202 ++
          (encU16 isLE 4 ++ (encU32 isLE 1 ++ (encU32 isLE v ++ post)))) := by
      simp [encodeEntry, List.append_assoc]
    rw [heq, readU16At_enc]
    rfl
  | orient v =>
    have heq : pre ++ (encodeEntry isLE (.orient v) ++ post) =
        pre ++ (encU16 isLE 0x112 ++
          (encU16 isLE 3 ++ (encU32 isLE 1 ++ (encU16 isLE v ++ ([0, 0] ++ post))))) := by
      simp [encodeEntry, List.append_assoc]
    rw [heq, readU16At_enc]
    rfl
  | other t body =>
    have heq : pre ++ (encodeEntry isLE (.other t body) ++ post) =
        pre ++ (encU16 isLE t ++ (body ++ post)) := by
      simp [encodeEntry, List.append_assoc]
    rw [heq, readU16At_enc]
    exact Nat.mod_eq_of_lt h.1

theorem entry_val32_read_ptr (isLE : Bool) (pre post : List Nat) (v : Nat)
    (h : v < 4294967296) :
    readU32At isLE (pre ++ (encodeEntry isLE (.ptr v) ++ post)) (pre.length + 8) = v := by
  have heq : pre ++ (encodeEntry isLE (.ptr v) ++ post) =
      (pre ++ (encU16 isLE 0x201 ++ (encU16 isLE 4 ++ encU32 isLE 1))) ++
        (encU32 isLE v ++ post) := by
    simp [encodeEntry, List.append_assoc]
  have hlen : (pre ++ (encU16 isLE 0x201 ++ (encU16 isLE 4 ++ encU32 isLE 1))).length =
      pre.length + 8 := by
    simp [encU16_length, encU32_length]
  rw [heq, ← hlen, readU32At_enc]
  exact Nat.mod_eq_of_lt h

theorem entry_val32_read_len (isLE : Bool) (pre post : List Nat) (v : Nat)
    (h : v < 4294967296) :
    readU32At isLE (pre ++ (encodeEntry isLE (.len v) ++ post)) (pre.length + 8) = v := by
  have heq : pre ++ (encodeEntry isLE (.len v) ++ post) =
      (pre ++ (encU16 isLE 0x202 ++ (encU16 isLE 4 ++ encU32 isLE 1))) ++
        (encU32 isLE v ++ post) := by
    simp [encodeEntry, List.append_assoc]
  have hlen : (pre ++ (encU16 isLE 0x202 ++ (encU16 isLE 4 ++ encU32 isLE 1))).length =
      pre.length + 8 := by
    simp [encU16_length, encU32_length]
  rw [heq, ← hlen, readU32At_enc]
  exact Nat.mod_eq_of_lt h

theorem entry_val16_read_orient (isLE : Bool) (pre post : List Nat) (v : Nat)
    (h : v < 65536) :
    readU16At isLE (pre ++ (encodeEntry isLE (.orient v) ++ post)) (pre.length + 8) = v := by
  have heq : pre ++ (encodeEntry isLE (.orient v) ++ post) =
      (pre ++ (encU16 isLE 0x112 ++ (encU16 isLE 3 ++ encU32 isLE 1))) ++
        (encU16 isLE v ++ ([0, 0] ++ post)) := by
    simp [encodeEntry, List.append_assoc]
  have hlen : (pre ++ (encU16 isLE 0x112 ++ (encU16 isLE 3 ++ encU32 isLE 1))).length =
      pre.length + 8 := by
    simp [encU16_length, encU32_length]
  rw [heq, ← hlen, readU16At_enc]
  exact Nat.mod_eq_of_lt h

/-! ## The entry loop over an encoded entry table -/

theorem scanEntries_encode (isLE : Bool) (ft : FindJpegType) (best : EmbeddedJpegInfo) :
    ∀ (es : List TestEntry) (pre post : List Nat) (co cl cor : Option Nat),
      (∀ e ∈ es, e.wf) →
      scanEntries isLE (pre ++ (encodeEntries isLE es ++ post)) ft best
          pre.length co cl cor es.length
        = scanT ft best co cl cor es := by
  intro es
  induction es with
  | nil => intro pre post co cl cor _; rfl
  | cons e rest ih =>
    intro pre post co cl cor h
    have he : e.wf := h e (by simp)
    have hrest : ∀ x ∈ rest, x.wf := fun x hx => h x (by simp [hx])
    have hbuf : pre ++ (encodeEntries isLE (e :: rest) ++ post)
        = pre ++ (encodeEntry isLE e ++ (encodeEntries isLE rest ++ post)) := by
      simp [encodeEntries, List.append_assoc]
    have hrec : ∀ co1 cl1 cor1,
        scanEntries isLE (pre ++ (encodeEntry isLE e ++ (encodeEntries isLE rest ++ post)))
            ft best (pre.length + 12) co1 cl1 cor1 rest.length
          = scanT ft best co1 cl1 cor1 rest := by
      intro co1 cl1 cor1
      have h12 : pre.length + 12 = (pre ++ encodeEntry isLE e).length := by
        simp [encodeEntry_length isLE e he]
      have hassoc : pre ++ (encodeEntry isLE e ++ (encodeEntries isLE rest ++ post))
          = (pre ++ encodeEntry isLE e) ++ (encodeEntries isLE rest ++ post) := by
        simp [List.append_assoc]
      rw [h12, hassoc]
      exact ih (pre ++ encodeEntry isLE e) post co1 cl1 cor1 hrest
    rw [List.length_cons, hbuf]
    have htag := entry_tag_read isLE pre (encodeEntries isLE rest ++ post) e he
    cases e with
    | ptr v =>
      have hval := entry_val32_read_ptr isLE pre (encodeEntries isLE rest ++ post) v he
      simp only [scanEntries, scanT, htag, entryTag, hval]
      norm_num
      cases cl with
      | some l => rfl
      | none => exact hrec (some v) none cor
    | len v =>
      have hval := entry_val32_read_len isLE pre (encodeEntries isLE rest ++ post) v he
      simp only [scanEntries, scanT, htag, entryTag, hval]
      norm_num
      cases co with
      | some o => rfl
      | none => exact hrec none (some v) cor
    | orient v =>
      have hval := entry_val16_read_orient isLE pre (encodeEntries isLE rest ++ post) v he
      simp only [scanEntries, scanT, htag, entryTag, hval]
      norm_num
      cases co with
      | some o =>
        cases cl with
        | some l => rfl
        | none => exact hrec (some o) none (some v)
      | none => exact hrec none cl (some v)
    | other t body =>
      simp only [scanEntries, scanT, htag, entryTag]
      rw [if_neg he.2.1, if_neg he.2.2.1, if_neg he.2.2.2.1]
      cases co with
      | some o =>
        cases cl with
        | some l => rfl
        | none => exact hrec (some o) none cor
      | none => exact hrec none cl cor

/-! ## Walking a single synthetic IFD -/

theorem tiffHeaderBytes_length (isLE : Bool) : (tiffHeaderBytes isLE).length = 8 := by
  cases isLE <;> rfl

theorem buildSingleIfd_length (isLE : Bool) (es : List TestEntry) (pad : List Nat)
    (h : ∀ e ∈ es, e.wf) :
    (buildSingleIfd isLE es pad).length = 14 + 12 * es.length + pad.length := by
  simp [buildSingleIfd, List.length_append, tiffHeaderBytes_length, encU16_length,
    encU32_length, encodeEntries_length isLE es h]
  omega

theorem buildSingleIfd_firstIfd (isLE : Bool) (es : List TestEntry) (pad : List Nat) :
    readU32At isLE (buildSingleIfd isLE es pad) 4 = 8 := by
  have hmagic : ((if isLE then [73, 73, 42, 0] else [77, 77, 0, 42]) : List Nat).length = 4 := by
    cases isLE <;> rfl
  have : buildSingleIfd isLE es pad =
      (if isLE then [73, 73, 42, 0] else [77, 77, 0, 42]) ++
        (encU32 isLE 8 ++ (encU16 isLE es.length ++ (encodeEntries isLE es ++
          (encU32 isLE 0 ++ pad)))) := by
    simp [buildSingleIfd, tiffHeaderBytes, List.append_assoc]
  rw [this, ← hmagic, readU32At_enc]

theorem buildSingleIfd_count (isLE : Bool) (es : List TestEntry) (pad : List Nat)
    (hn : es.length < 65536) :
    readU16At isLE (buildSingleIfd isLE es pad) 8 = es.length := by
  have : buildSingleIfd isLE es pad =
      tiffHeaderBytes isLE ++
        (encU16 isLE es.length ++ (encodeEntries isLE es ++ (encU32 isLE 0 ++ pad))) := by
    simp [buildSingleIfd, List.append_assoc]
  rw [this, ← tiffHeaderBytes_length isLE, readU16At_enc]
  exact Nat.mod_eq_of_lt hn

theorem buildSingleIfd_next (isLE : Bool) (es : List TestEntry) (pad : List Nat)
    (h : ∀ e ∈ es, e.wf) :
    readU32At isLE (buildSingleIfd isLE es pad) (8 + 2 + es.length * 12) = 0 := by
  have hpre : (tiffHeaderBytes isLE ++ (encU16 isLE es.length ++ encodeEntries isLE es)).length
      = 8 + 2 + es.length * 12 := by
    simp [List.length_append, tiffHeaderBytes_length, encU16_length,
      encodeEntries_length isLE es h]
    omega
  have : buildSingleIfd isLE es pad =
      (tiffHeaderBytes isLE ++ (encU16 isLE es.length ++ encodeEntries isLE es)) ++
        (encU32 isLE 0 ++ pad) := by
    simp [buildSingleIfd, List.append_assoc]
  rw [this, ← hpre, readU32At_enc]

theorem buildSingleIfd_scan (isLE : Bool) (ft : FindJpegType) (best : EmbeddedJpegInfo)
    (es : List TestEntry) (pad : List Nat) (h : ∀ e ∈ es, e.wf) :
    scanEntries isLE (buildSingleIfd isLE es pad) ft best 10 none none none es.length
      = scanT ft best none none none es := by
  have hpre : (tiffHeaderBytes isLE ++ encU16 isLE es.length).length = 10 := by
    simp [List.length_append, tiffHeaderBytes_length, encU16_length]
  have hbuf : buildSingleIfd isLE es pad =
      (tiffHeaderBytes isLE ++ encU16 isLE es.length) ++
        (encodeEntries isLE es ++ (encU32 isLE 0 ++ pad)) := by
    simp [buildSingleIfd, List.append_assoc]
  rw [hbuf, ← hpre]
  exact scanEntries_encode isLE ft best es _ _ none none none h

theorem walk_singleIfd (isLE : Bool) (ft : FindJpegType) (best : EmbeddedJpegInfo)
    (es : List TestEntry) (pad : List Nat) (fuel : Nat)
    (h : ∀ e ∈ es, e.wf) (hn : es.length < 65536) :
    walkIfds isLE (buildSingleIfd isLE es pad) ft (fuel + 2) 8 best
      = some (Except.ok (scanT ft best none none none es)) := by
  have hBlen := buildSingleIfd_length isLE es pad h
  have hcount := buildSingleIfd_count isLE es pad hn
  have hnext := buildSingleIfd_next isLE es pad h
  have hscan := buildSingleIfd_scan isLE ft best es pad h
  simp only [walkIfds]
  rw [if_neg (by omega : ¬ (8 : Nat) = 0)]
  rw [if_neg (show ¬ ¬ (8 + 2 ≤ (buildSingleIfd isLE es pad).length) by omega)]
  rw [hcount]
  rw [if_neg (show ¬ ¬ (es.length * 12 ≤ (buildSingleIfd isLE es pad).length - (8 + 2)) by omega)]
  rw [if_neg (show ¬ ¬ (2 + es.length * 12 + 4 ≤ (buildSingleIfd isLE es pad).length - 8) by
    omega)]
  rw [hnext, if_pos rfl, show (8 : Nat) + 2 = 10 from rfl, hscan]

/-! ## From the full scanner to the single-IFD entry scan -/

theorem buildSingleIfd_take4 (isLE : Bool) (es : List TestEntry) (pad : List Nat) :
    (buildSingleIfd isLE es pad).take 4 =
      (if isLE then [73, 73, 42, 0] else [77, 77, 0, 42]) := by
  have hmagic : ((if isLE then [73, 73, 42, 0] else [77, 77, 0, 42]) : List Nat).length = 4 := by
    cases isLE <;> rfl
  have hb : buildSingleIfd isLE es pad =
      (if isLE then [73, 73, 42, 0] else [77, 77, 0, 42]) ++
        (encU32 isLE 8 ++ (encU16 isLE es.length ++ (encodeEntries isLE es ++
          (encU32 isLE 0 ++ pad)))) := by
    simp [buildSingleIfd, tiffHeaderBytes, List.append_assoc]
  rw [hb, ← hmagic, List.take_left]

theorem find_singleIfd (isLE : Bool) (ft : FindJpegType) (g pad : List Nat)
    (es : List TestEntry) (fuel : Nat) (h : ∀ e ∈ es, e.wf) (hn : es.length < 65536) :
    find_largest_embedded_jpeg (g ++ buildSingleIfd isLE es pad) g.length ft (fuel + 2)
      = (if scanT ft emptyInfo none none none es = emptyInfo then
           some (Except.error "No JPEG data found")
         else if ¬ ((scanT ft emptyInfo none none none es).offset +
             (scanT ft emptyInfo none none none es).length ≤
             (buildSingleIfd isLE es pad).length) then
           some (Except.error "JPEG data exceeds file size")
         else some (Except.ok
           ⟨(scanT ft emptyInfo none none none es).offset + g.length,
             (scanT ft emptyInfo none none none es).length,
             (scanT ft emptyInfo none none none es).orientation⟩)) := by
  have hdrop : (g ++ buildSingleIfd isLE es pad).drop g.length = buildSingleIfd isLE es pad :=
    List.drop_left g (buildSingleIfd isLE es pad)
  have hlen := buildSingleIfd_length isLE es pad h
  have htake := buildSingleIfd_take4 isLE es pad
  have hfirst := buildSingleIfd_firstIfd isLE es pad
  have hwalk := walk_singleIfd isLE ft emptyInfo es pad fuel h hn
  simp only [find_largest_embedded_jpeg]
  rw [hdrop]
  rw [if_neg (show ¬ ¬ (8 ≤ (buildSingleIfd isLE es pad).length) by omega)]
  cases isLE with
  | true =>
    rw [if_pos (by simpa using htake)]
    simp only [findPost]
    rw [hfirst, hwalk]
  | false =>
    rw [if_neg (show ¬ (buildSingleIfd false es pad).take 4 = [73, 73, 42, 0] by
      rw [htake]; decide)]
    rw [if_pos (by simpa using htake)]
    simp only [findPost]
    rw [hfirst, hwalk]

/-! ## Pure facts about the entry scan -/


theorem scanT_others (ft : FindJpegType) (best : EmbeddedJpegInfo) :
    ∀ (os : List TestEntry) (es : List TestEntry) (co cl cor : Option Nat),
      (∀ e ∈ os, e.isOther) → (co = none ∨ cl = none) →
      scanT ft best co cl cor (os ++ es) = scanT ft best co cl cor es := by
  intro os
  induction os with
  | nil => intro es co cl cor _ _; rfl
  | cons e os ih =>
    intro es co cl cor hos hcc
    have he : e.isOther := hos e (by simp)
    have hos' : ∀ x ∈ os, x.isOther := fun x hx => hos x (by simp [hx])
    cases e with
    | ptr v => exact absurd he (by simp [TestEntry.isOther])
    | len v => exact absurd he (by simp [TestEntry.isOther])
    | orient v => exact absurd he (by simp [TestEntry.isOther])
    | other t body =>
      rcases hcc with hco | hcl
      · subst hco
        simp only [List.cons_append, scanT]
        exact ih es none cl cor hos' (Or.inl rfl)
      · subst hcl
        cases co with
        | none =>
          simp only [List.cons_append, scanT]
          exact ih es none none cor hos' (Or.inl rfl)
        | some o =>
          simp only [List.cons_append, scanT]
          exact ih es (some o) none cor hos' (Or.inr rfl)

theorem scanT_orient_head (ft : FindJpegType) (best : EmbeddedJpegInfo)
    (v : Nat) (es : List TestEntry) (co cl cor : Option Nat)
    (hcc : co = none ∨ cl = none) :
    scanT ft best co cl cor (.orient v :: es) = scanT ft best co cl (some v) es := by
  rcases hcc with hco | hcl
  · subst hco; simp only [scanT]
  · subst hcl
    cases co with
    | none => simp only [scanT]
    | some o => simp only [scanT]

theorem scanT_pair (ft : FindJpegType) (best : EmbeddedJpegInfo) (ptrFirst : Bool)
    (po le : Nat) (o3 : List TestEntry) (rest : List TestEntry) (cor : Option Nat)
    (h3 : ∀ e ∈ o3, e.isOther) :
    scanT ft best none none cor
        ((if ptrFirst then .ptr po :: (o3 ++ (.len le :: rest))
          else .len le :: (o3 ++ (.ptr po :: rest))))
      = applyPolicy ft best po le cor := by
  cases ptrFirst with
  | true =>
    simp only [if_pos, scanT]
    rw [scanT_others ft best o3 (.len le :: rest) (some po) none cor h3 (Or.inr rfl)]
    simp only [scanT]
  | false =>
    simp only [if_neg, scanT]
    rw [scanT_others ft best o3 (.ptr po :: rest) none (some le) cor h3 (Or.inl rfl)]
    simp only [scanT]

theorem applyPolicy_empty (ft : FindJpegType) (po le : Nat) (ov : Option Nat)
    (h : 1 ≤ le) :
    applyPolicy ft emptyInfo po le ov = ⟨po, le, ov⟩ := by
  cases ft with
  | Largest => simp [applyPolicy, emptyInfo]; omega
  | Smallest => simp [applyPolicy, emptyInfo]

/-! ## Claim C1 -/



theorem c1Entries_wf (ptrFirst : Bool) (ov : Option Nat) (po le : Nat)
    (o1 o2 o3 rest : List TestEntry)
    (h1 : ∀ e ∈ o1, e.wf ∧ e.isOther) (h2 : ∀ e ∈ o2, e.wf ∧ e.isOther)
    (h3 : ∀ e ∈ o3, e.wf ∧ e.isOther) (hrest : ∀ e ∈ rest, e.wf)
    (hov : ∀ v, ov = some v → v < 65536)
    (hpo : po < 4294967296) (hle : le < 4294967296) :
    ∀ e ∈ c1Entries ptrFirst ov po le o1 o2 o3 rest, e.wf := by
  intro e he
  unfold c1Entries at he
  rcases List.mem_append.1 he with h | h
  · exact (h1 e h).1
  rcases List.mem_append.1 h with h | h
  · cases hv : ov with
    | none => rw [hv] at h; cases h
    | some v =>
      rw [hv] at h
      rw [List.mem_singleton.1 h]
      exact hov v hv
  rcases List.mem_append.1 h with h | h
  · exact (h2 e h).1
  cases ptrFirst with
  | true =>
    rw [if_pos rfl] at h
    rcases List.mem_cons.1 h with h | h
    · rw [h]; exact hpo
    rcases List.mem_append.1 h with h | h
    · exact (h3 e h).1
    rcases List.mem_cons.1 h with h | h
    · rw [h]; exact hle
    · exact hrest e h
  | false =>
    rw [if_neg (by simp)] at h
    rcases List.mem_cons.1 h with h | h
    · rw [h]; exact hle
    rcases List.mem_append.1 h with h | h
    · exact (h3 e h).1
    rcases List.mem_cons.1 h with h | h
    · rw [h]; exact hpo
    · exact hrest e h

theorem scanT_c1Entries (ft : FindJpegType) (ptrFirst : Bool) (ov : Option Nat)
    (po le : Nat) (o1 o2 o3 rest : List TestEntry)
    (h1 : ∀ e ∈ o1, e.isOther) (h2 : ∀ e ∈ o2, e.isOther) (h3 : ∀ e ∈ o3, e.isOther)
    (hle1 : 1 ≤ le) :
    scanT ft emptyInfo none none none (c1Entries ptrFirst ov po le o1 o2 o3 rest)
      = ⟨po, le, ov⟩ := by
  unfold c1Entries
  rw [scanT_others ft emptyInfo o1 _ none none none h1 (Or.inl rfl)]
  cases ov with
  | none =>
    simp only [orientEntries, List.nil_append]
    rw [scanT_others ft emptyInfo o2 _ none none none h2 (Or.inl rfl)]
    rw [scanT_pair ft emptyInfo ptrFirst po le o3 rest none h3]
    exact applyPolicy_empty ft po le none hle1
  | some v =>
    simp only [orientEntries, List.singleton_append]
    rw [scanT_orient_head ft emptyInfo v _ none none none (Or.inl rfl)]
    rw [scanT_others ft emptyInfo o2 _ none none (some v) h2 (Or.inl rfl)]
    rw [scanT_pair ft emptyInfo ptrFirst po le o3 rest (some v) h3]
    exact applyPolicy_empty ft po le (some v) hle1

/-- Claim C1 (amended): for every little- or big-endian TIFF buffer at any offset
`g.length` inside the scanned buffer whose single IFD declares the
JPEG-pointer tag (value `po`) and the JPEG-length tag (value `le ≥ 1`, the
declared region inside the TIFF stream) among arbitrary unrecognized
entries, and optionally the orientation tag with value `ov` *before the
pointer/length pair completes*, the scanner returns `Ok` with exactly the
declared offset translated by the TIFF header offset, the declared length,
and exactly the declared orientation — or `none` when no orientation entry
precedes the completion of the pair (entries in `rest`, after the pair, are
never reached). -/
theorem claim_c1 (isLE ptrFirst : Bool) (ft : FindJpegType) (g pad : List Nat)
    (o1 o2 o3 rest : List TestEntry) (ov : Option Nat) (po le : Nat) (fuel : Nat)
    (h1 : ∀ e ∈ o1, e.wf ∧ e.isOther) (h2 : ∀ e ∈ o2, e.wf ∧ e.isOther)
    (h3 : ∀ e ∈ o3, e.wf ∧ e.isOther) (hrest : ∀ e ∈ rest, e.wf)
    (hov : ∀ v, ov = some v → v < 65536)
    (hpo : po < 4294967296) (hle : le < 4294967296) (hle1 : 1 ≤ le)
    (hn : (c1Entries ptrFirst ov po le o1 o2 o3 rest).length < 65536)
    (hbound : po + le ≤
      (buildSingleIfd isLE (c1Entries ptrFirst ov po le o1 o2 o3 rest) pad).length) :
    find_largest_embedded_jpeg
        (g ++ buildSingleIfd isLE (c1Entries ptrFirst ov po le o1 o2 o3 rest) pad)
        g.length ft (fuel + 2)
      = some (Except.ok ⟨po + g.length, le, ov⟩) := by
  have hwf := c1Entries_wf ptrFirst ov po le o1 o2 o3 rest h1 h2 h3 hrest hov hpo hle
  rw [find_singleIfd isLE ft g pad _ fuel hwf hn]
  rw [scanT_c1Entries ft ptrFirst ov po le o1 o2 o3 rest
    (fun e he => (h1 e he).2) (fun e he => (h2 e he).2) (fun e he => (h3 e he).2) hle1]
  rw [if_neg (show ¬ (⟨po, le, ov⟩ : EmbeddedJpegInfo) = emptyInfo by
    simp [emptyInfo, EmbeddedJpegInfo.mk.injEq]
    omega)]
  rw [if_neg (show ¬ ¬ (po + le ≤
      (buildSingleIfd isLE (c1Entries ptrFirst ov po le o1 o2 o3 rest) pad).length) by
    simpa using hbound)]

/-- Claim C1 (counterexample to the claim as stated): a valid little-endian TIFF
buffer whose single IFD declares pointer 16, length 5 and then the
orientation tag with value 3 *after* the pointer/length pair; the claim
asserts the returned orientation equals the declared value 3, but the
scanner stops scanning entries once the pair is complete and returns
orientation `none`. -/
theorem claim_c1_counterexample :
    find_largest_embedded_jpeg orientAfterBuf 0 .Largest 2 =
        some (Except.ok ⟨16, 5, none⟩)
      ∧ (⟨16, 5, none⟩ : EmbeddedJpegInfo).orientation ≠ some 3 :=
  ⟨rfl, by decide⟩

/-- Witness for `claim_c1` at a concrete input: orientation entry before the
pair, little-endian, no padding or extra entries. -/
theorem claim_c1_witness :
    find_largest_embedded_jpeg
        (buildSingleIfd true [.orient 2, .ptr 16, .len 5] []) 0 .Largest 2
      = some (Except.ok ⟨16, 5, some 2⟩) :=
  claim_c1 true true .Largest [] [] [] [] [] [] (some 2) 16 5 0
    (by simp) (by simp) (by simp) (by simp)
    (by intro v hv; cases hv; omega)
    (by norm_num) (by norm_num) (by norm_num)
    (by decide) (by decide)

/-! ## Walking a synthetic IFD chain (claim C2) -/

theorem encodeEntries_pair_length (isLE : Bool) (a b : Nat) :
    (encodeEntries isLE [TestEntry.ptr a, TestEntry.len b]).length = 24 := by
  simp [encodeEntries, encodeEntry, List.length_append, encU16_length, encU32_length]

theorem chainFrom_length (isLE : Bool) :
    ∀ (cs : List (Nat × Nat)) (pos : Nat), (chainFrom isLE pos cs).length = 30 * cs.length := by
  intro cs
  induction cs with
  | nil => intro pos; rfl
  | cons c rest ih =>
    intro pos
    simp only [chainFrom, List.length_append, List.length_cons, encU16_length, encU32_length,
      encodeEntries_pair_length, ih (pos + 30)]
    ring

theorem scanT_pairOnly (ft : FindJpegType) (best : EmbeddedJpegInfo) (a b : Nat) :
    scanT ft best none none none [TestEntry.ptr a, TestEntry.len b]
      = applyPolicy ft best a b none := rfl

theorem walk_chain (isLE : Bool) (ft : FindJpegType) :
    ∀ (cs : List (Nat × Nat)) (pre pad : List Nat) (best : EmbeddedJpegInfo) (fuel : Nat),
      cs ≠ [] → (∀ c ∈ cs, c.1 < 4294967296 ∧ c.2 < 4294967296) →
      pre.length + 30 * cs.length < 4294967296 → pre.length ≠ 0 →
      walkIfds isLE (pre ++ (chainFrom isLE pre.length cs ++ pad)) ft
          (cs.length + fuel + 1) pre.length best
        = some (Except.ok (foldPolicy ft best cs)) := by
  intro cs
  induction cs with
  | nil => intro pre pad best fuel hne; exact absurd rfl hne
  | cons c rest ih =>
    intro pre pad best fuel _ hv h32 hpos
    simp only [List.length_cons] at h32
    have hc := hv c (by simp)
    have hnlt : (if rest = [] then 0 else pre.length + 30) < 4294967296 := by
      rcases eq_or_ne rest [] with hr | hr
      · rw [if_pos hr]; omega
      · rw [if_neg hr]; omega
    have hchain : chainFrom isLE pre.length (c :: rest)
        = encU16 isLE 2 ++ (encodeEntries isLE [.ptr c.1, .len c.2] ++
            (encU32 isLE (if rest = [] then 0 else pre.length + 30) ++
              chainFrom isLE (pre.length + 30) rest)) := by
      simp [chainFrom, List.append_assoc]
    have hlenchain := chainFrom_length isLE (c :: rest) pre.length
    have hBlen : (pre ++ (chainFrom isLE pre.length (c :: rest) ++ pad)).length
        = pre.length + 30 * (rest.length + 1) + pad.length := by
      simp [List.length_append, hlenchain]
      ring
    have hcount : readU16At isLE (pre ++ (chainFrom isLE pre.length (c :: rest) ++ pad))
        pre.length = 2 := by
      have hb : pre ++ (chainFrom isLE pre.length (c :: rest) ++ pad)
          = pre ++ (encU16 isLE 2 ++ (encodeEntries isLE [.ptr c.1, .len c.2] ++
              (encU32 isLE (if rest = [] then 0 else pre.length + 30) ++
                (chainFrom isLE (pre.length + 30) rest ++ pad)))) := by
        rw [hchain]; simp [List.append_assoc]
      rw [hb, readU16At_enc]
    have hscan : scanEntries isLE (pre ++ (chainFrom isLE pre.length (c :: rest) ++ pad))
        ft best (pre.length + 2) none none none 2
        = applyPolicy ft best c.1 c.2 none := by
      have hpre2 : (pre ++ encU16 isLE 2).length = pre.length + 2 := by
        simp [encU16_length]
      have hb : pre ++ (chainFrom isLE pre.length (c :: rest) ++ pad)
          = (pre ++ encU16 isLE 2) ++ (encodeEntries isLE [.ptr c.1, .len c.2] ++
              (encU32 isLE (if rest = [] then 0 else pre.length + 30) ++
                (chainFrom isLE (pre.length + 30) rest ++ pad))) := by
        rw [hchain]; simp [List.append_assoc]
      have hwf : ∀ e ∈ [TestEntry.ptr c.1, TestEntry.len c.2], e.wf := by
        intro e he
        rcases List.mem_cons.1 he with h | h
        · rw [h]; exact hc.1
        rcases List.mem_cons.1 h with h | h
        · rw [h]; exact hc.2
        · cases h
      rw [hb, ← hpre2,
        show ((2 : Nat) = [TestEntry.ptr c.1, TestEntry.len c.2].length) from rfl,
        scanEntries_encode isLE ft best [.ptr c.1, .len c.2] _ _ none none none hwf]
      exact scanT_pairOnly ft best c.1 c.2
    have hnextread : readU32At isLE (pre ++ (chainFrom isLE pre.length (c :: rest) ++ pad))
        (pre.length + 2 + 2 * 12) = (if rest = [] then 0 else pre.length + 30) := by
      have hpre26 : (pre ++ (encU16 isLE 2 ++ encodeEntries isLE [.ptr c.1, .len c.2])).length
          = pre.length + 2 + 2 * 12 := by
        simp [List.length_append, encU16_length, encodeEntries_pair_length]
      have hb : pre ++ (chainFrom isLE pre.length (c :: rest) ++ pad)
          = (pre ++ (encU16 isLE 2 ++ encodeEntries isLE [.ptr c.1, .len c.2])) ++
              (encU32 isLE (if rest = [] then 0 else pre.length + 30) ++
                (chainFrom isLE (pre.length + 30) rest ++ pad)) := by
        rw [hchain]; simp [List.append_assoc]
      rw [hb, ← hpre26, readU32At_enc]
      exact Nat.mod_eq_of_lt hnlt
    simp only [List.length_cons]
    rw [show rest.length + 1 + fuel + 1 = (rest.length + fuel + 1) + 1 by ring]
    simp only [walkIfds]
    rw [if_neg hpos]
    rw [if_neg (show ¬ ¬ (pre.length + 2 ≤
        (pre ++ (chainFrom isLE pre.length (c :: rest) ++ pad)).length) by omega)]
    rw [hcount]
    rw [if_neg (show ¬ ¬ ((2 : Nat) * 12 ≤
        (pre ++ (chainFrom isLE pre.length (c :: rest) ++ pad)).length - (pre.length + 2)) by
      omega)]
    rw [if_neg (show ¬ ¬ ((2 : Nat) + 2 * 12 + 4 ≤
        (pre ++ (chainFrom isLE pre.length (c :: rest) ++ pad)).length - pre.length) by
      omega)]
    rw [hscan, hnextread]
    simp only [foldPolicy]
    rcases eq_or_ne rest [] with hr | hr
    · subst hr
      rw [if_pos rfl]
      simp [walkIfds, foldPolicy]
    · rw [if_neg hr]
      have hpre30 : (pre ++ (encU16 isLE 2 ++ (encodeEntries isLE [.ptr c.1, .len c.2] ++
          encU32 isLE (pre.length + 30)))).length = pre.length + 30 := by
        simp [List.length_append, encU16_length, encodeEntries_pair_length, encU32_length]
      have hb : pre ++ (chainFrom isLE pre.length (c :: rest) ++ pad)
          = (pre ++ (encU16 isLE 2 ++ (encodeEntries isLE [.ptr c.1, .len c.2] ++
              encU32 isLE (pre.length + 30)))) ++
              (chainFrom isLE (pre.length + 30) rest ++ pad) := by
        rw [hchain, if_neg hr]; simp [List.append_assoc]
      have hv' : ∀ x ∈ rest, x.1 < 4294967296 ∧ x.2 < 4294967296 :=
        fun x hx => hv x (by simp [hx])
      have h32' : (pre ++ (encU16 isLE 2 ++ (encodeEntries isLE [.ptr c.1, .len c.2] ++
          encU32 isLE (pre.length + 30)))).length + 30 * rest.length < 4294967296 := by
        rw [hpre30]; omega
      have hpos' : (pre ++ (encU16 isLE 2 ++ (encodeEntries isLE [.ptr c.1, .len c.2] ++
          encU32 isLE (pre.length + 30)))).length ≠ 0 := by
        rw [hpre30]; omega
      have := ih (pre ++ (encU16 isLE 2 ++ (encodeEntries isLE [.ptr c.1, .len c.2] ++
          encU32 isLE (pre.length + 30)))) pad (applyPolicy ft best c.1 c.2 none) fuel
          hr hv' h32' hpos'
      rw [hpre30] at this
      rw [hb]
      exact this

theorem buildChain_length (isLE : Bool) (cs : List (Nat × Nat)) (pad : List Nat) :
    (buildChain isLE cs pad).length = 8 + 30 * cs.length + pad.length := by
  simp [buildChain, List.length_append, tiffHeaderBytes_length, chainFrom_length]
  ring

theorem buildChain_take4 (isLE : Bool) (cs : List (Nat × Nat)) (pad : List Nat) :
    (buildChain isLE cs pad).take 4 =
      (if isLE then [73, 73, 42, 0] else [77, 77, 0, 42]) := by
  have hmagic : ((if isLE then [73, 73, 42, 0] else [77, 77, 0, 42]) : List Nat).length = 4 := by
    cases isLE <;> rfl
  have hb : buildChain isLE cs pad =
      (if isLE then [73, 73, 42, 0] else [77, 77, 0, 42]) ++
        (encU32 isLE 8 ++ (chainFrom isLE 8 cs ++ pad)) := by
    simp [buildChain, tiffHeaderBytes, List.append_assoc]
  rw [hb, ← hmagic, List.take_left]

theorem buildChain_firstIfd (isLE : Bool) (cs : List (Nat × Nat)) (pad : List Nat) :
    readU32At isLE (buildChain isLE cs pad) 4 = 8 := by
  have hmagic : ((if isLE then [73, 73, 42, 0] else [77, 77, 0, 42]) : List Nat).length = 4 := by
    cases isLE <;> rfl
  have hb : buildChain isLE cs pad =
      (if isLE then [73, 73, 42, 0] else [77, 77, 0, 42]) ++
        (encU32 isLE 8 ++ (chainFrom isLE 8 cs ++ pad)) := by
    simp [buildChain, tiffHeaderBytes, List.append_assoc]
  rw [hb, ← hmagic, readU32At_enc]

theorem find_chain (isLE : Bool) (ft : FindJpegType) (cs : List (Nat × Nat))
    (pad : List Nat) (fuel : Nat) (hne : cs ≠ [])
    (hv : ∀ c ∈ cs, c.1 < 4294967296 ∧ c.2 < 4294967296)
    (h32 : 8 + 30 * cs.length < 4294967296) :
    find_largest_embedded_jpeg (buildChain isLE cs pad) 0 ft (cs.length + fuel + 1)
      = (if foldPolicy ft emptyInfo cs = emptyInfo then
           some (Except.error "No JPEG data found")
         else if ¬ ((foldPolicy ft emptyInfo cs).offset +
             (foldPolicy ft emptyInfo cs).length ≤ (buildChain isLE cs pad).length) then
           some (Except.error "JPEG data exceeds file size")
         else some (Except.ok
           ⟨(foldPolicy ft emptyInfo cs).offset, (foldPolicy ft emptyInfo cs).length,
             (foldPolicy ft emptyInfo cs).orientation⟩)) := by
  have hlen := buildChain_length isLE cs pad
  have htake := buildChain_take4 isLE cs pad
  have hfirst := buildChain_firstIfd isLE cs pad
  have hwalk : walkIfds isLE (buildChain isLE cs pad) ft (cs.length + fuel + 1) 8 emptyInfo
      = some (Except.ok (foldPolicy ft emptyInfo cs)) := by
    have hb : buildChain isLE cs pad =
        tiffHeaderBytes isLE ++ (chainFrom isLE (tiffHeaderBytes isLE).length cs ++ pad) := by
      simp [buildChain, tiffHeaderBytes_length]
    rw [hb, show (8 : Nat) = (tiffHeaderBytes isLE).length from (tiffHeaderBytes_length isLE).symm]
    exact walk_chain isLE ft cs (tiffHeaderBytes isLE) pad emptyInfo fuel hne hv
      (by rw [tiffHeaderBytes_length]; omega) (by rw [tiffHeaderBytes_length]; omega)
  have hcs1 : 1 ≤ cs.length := by
    cases cs with
    | nil => exact absurd rfl hne
    | cons a l => simp
  simp only [find_largest_embedded_jpeg, List.drop_zero]
  rw [if_neg (show ¬ ¬ (8 ≤ (buildChain isLE cs pad).length) by omega)]
  cases isLE with
  | true =>
    rw [if_pos (by simpa using htake)]
    simp only [findPost]
    rw [hfirst, hwalk]
    simp
  | false =>
    rw [if_neg (show ¬ (buildChain false cs pad).take 4 = [73, 73, 42, 0] by
      rw [htake]; decide)]
    rw [if_pos (by simpa using htake)]
    simp only [findPost]
    rw [hfirst, hwalk]
    simp

theorem foldPolicy_largest :
    ∀ (cs : List (Nat × Nat)) (b : EmbeddedJpegInfo),
      1 ≤ b.length → (∀ c ∈ cs, 1 ≤ c.2) →
      (foldPolicy .Largest b cs = b ∧ ∀ c ∈ cs, c.2 ≤ b.length) ∨
      (∃ A cc B, cs = A ++ cc :: B ∧ foldPolicy .Largest b cs = ⟨cc.1, cc.2, none⟩ ∧
        b.length < cc.2 ∧ (∀ a ∈ A, a.2 < cc.2) ∧ (∀ x ∈ B, x.2 ≤ cc.2)) := by
  intro cs
  induction cs with
  | nil => intro b hb _; exact Or.inl ⟨rfl, by simp⟩
  | cons c rest ih =>
    intro b hb h1
    have hc1 : 1 ≤ c.2 := h1 c (by simp)
    have hrest : ∀ x ∈ rest, 1 ≤ x.2 := fun x hx => h1 x (by simp [hx])
    simp only [foldPolicy, applyPolicy]
    by_cases hc : b.length < c.2
    · rw [if_pos hc]
      rcases ih ⟨c.1, c.2, none⟩ hc1 hrest with ⟨heq, hall⟩ | ⟨A, cc, B, hsp, heq, hlt, hA, hB⟩
      · refine Or.inr ⟨[], c, rest, by simp, heq, hc, by simp, ?_⟩
        intro x hx
        exact hall x hx
      · refine Or.inr ⟨c :: A, cc, B, by simp [hsp], heq, ?_, ?_, hB⟩
        · exact Nat.lt_trans hc hlt
        · intro a ha
          rcases List.mem_cons.1 ha with h | h
          · rw [h]; exact hlt
          · exact hA a h
    · rw [if_neg hc]
      rcases ih b hb hrest with ⟨heq, hall⟩ | ⟨A, cc, B, hsp, heq, hlt, hA, hB⟩
      · refine Or.inl ⟨heq, ?_⟩
        intro x hx
        rcases List.mem_cons.1 hx with h | h
        · rw [h]; omega
        · exact hall x h
      · refine Or.inr ⟨c :: A, cc, B, by simp [hsp], heq, hlt, ?_, hB⟩
        intro a ha
        rcases List.mem_cons.1 ha with h | h
        · rw [h]; omega
        · exact hA a h

theorem foldPolicy_smallest :
    ∀ (cs : List (Nat × Nat)) (b : EmbeddedJpegInfo),
      1 ≤ b.length → (∀ c ∈ cs, 1 ≤ c.2) →
      (foldPolicy .Smallest b cs = b ∧ ∀ c ∈ cs, b.length ≤ c.2) ∨
      (∃ A cc B, cs = A ++ cc :: B ∧ foldPolicy .Smallest b cs = ⟨cc.1, cc.2, none⟩ ∧
        cc.2 < b.length ∧ (∀ a ∈ A, cc.2 < a.2) ∧ (∀ x ∈ B, cc.2 ≤ x.2)) := by
  intro cs
  induction cs with
  | nil => intro b hb _; exact Or.inl ⟨rfl, by simp⟩
  | cons c rest ih =>
    intro b hb h1
    have hc1 : 1 ≤ c.2 := h1 c (by simp)
    have hrest : ∀ x ∈ rest, 1 ≤ x.2 := fun x hx => h1 x (by simp [hx])
    simp only [foldPolicy, applyPolicy]
    by_cases hc : c.2 < b.length
    · rw [if_pos (Or.inl hc)]
      rcases ih ⟨c.1, c.2, none⟩ hc1 hrest with ⟨heq, hall⟩ | ⟨A, cc, B, hsp, heq, hlt, hA, hB⟩
      · refine Or.inr ⟨[], c, rest, by simp, heq, hc, by simp, ?_⟩
        intro x hx
        exact hall x hx
      · refine Or.inr ⟨c :: A, cc, B, by simp [hsp], heq, ?_, ?_, hB⟩
        · exact Nat.lt_trans hlt hc
        · intro a ha
          rcases List.mem_cons.1 ha with h | h
          · rw [h]; exact hlt
          · exact hA a h
    · rw [if_neg (by omega : ¬ (c.2 < b.length ∨ b.length = 0))]
      rcases ih b hb hrest with ⟨heq, hall⟩ | ⟨A, cc, B, hsp, heq, hlt, hA, hB⟩
      · refine Or.inl ⟨heq, ?_⟩
        intro x hx
        rcases List.mem_cons.1 hx with h | h
        · rw [h]; omega
        · exact hall x h
      · refine Or.inr ⟨c :: A, cc, B, by simp [hsp], heq, hlt, ?_, hB⟩
        intro a ha
        rcases List.mem_cons.1 ha with h | h
        · rw [h]; omega
        · exact hA a h

/-- Claim C2 (amended): over a buffer whose IFD chain declares one pointer/length
candidate per IFD, all of them with length at least 1 and in bounds, the
scanner returns the candidate the policy selects across the whole chain:
with `Largest` the first candidate of maximal length (every earlier
candidate is strictly shorter, every later one no longer), with `Smallest`
the first candidate of minimal length.  The amendment restricts the claim
to candidates of nonzero length: a declared length 0 interacts with the
sentinel length 0 of the running best candidate, so a zero-length
candidate is never selected under `Largest` and corrupts the comparison
baseline under `Smallest`. -/
theorem claim_c2 (isLE : Bool) (ft : FindJpegType) (cs : List (Nat × Nat))
    (pad : List Nat) (fuel : Nat) (hne : cs ≠ [])
    (hv : ∀ c ∈ cs, c.1 < 4294967296 ∧ c.2 < 4294967296)
    (hpos : ∀ c ∈ cs, 1 ≤ c.2)
    (hbound : ∀ c ∈ cs, c.1 + c.2 ≤ (buildChain isLE cs pad).length)
    (h32 : 8 + 30 * cs.length < 4294967296) :
    ∃ A c B, cs = A ++ c :: B ∧
      find_largest_embedded_jpeg (buildChain isLE cs pad) 0 ft (cs.length + fuel + 1)
        = some (Except.ok ⟨c.1, c.2, none⟩) ∧
      (match ft with
       | .Largest => (∀ a ∈ A, a.2 < c.2) ∧ (∀ x ∈ B, x.2 ≤ c.2)
       | .Smallest => (∀ a ∈ A, c.2 < a.2) ∧ (∀ x ∈ B, c.2 ≤ x.2)) := by
  have hfind : ∀ w : EmbeddedJpegInfo, foldPolicy ft emptyInfo cs = w → 1 ≤ w.length →
      w.offset + w.length ≤ (buildChain isLE cs pad).length →
      find_largest_embedded_jpeg (buildChain isLE cs pad) 0 ft (cs.length + fuel + 1)
        = some (Except.ok ⟨w.offset, w.length, w.orientation⟩) := by
    intro w hw h1 hbw
    rw [find_chain isLE ft cs pad fuel hne hv h32, hw]
    rw [if_neg (show ¬ w = emptyInfo by
      intro hcon
      rw [hcon] at h1
      simp [emptyInfo] at h1)]
    rw [if_neg (by simpa using hbw)]
  cases cs with
  | nil => exact absurd rfl hne
  | cons c0 rest =>
    have hc0 : 1 ≤ c0.2 := hpos c0 (by simp)
    have hrestpos : ∀ x ∈ rest, 1 ≤ x.2 := fun x hx => hpos x (by simp [hx])
    have hfold1 : foldPolicy ft emptyInfo (c0 :: rest)
        = foldPolicy ft ⟨c0.1, c0.2, none⟩ rest := by
      simp only [foldPolicy]
      rw [applyPolicy_empty ft c0.1 c0.2 none hc0]
    cases ft with
    | Largest =>
      rcases foldPolicy_largest rest ⟨c0.1, c0.2, none⟩ hc0 hrestpos with
        ⟨heq, hall⟩ | ⟨A, cc, B, hsp, heq, hlt, hA, hB⟩
      · refine ⟨[], c0, rest, by simp, ?_, by simp, fun x hx => hall x hx⟩
        have := hfind ⟨c0.1, c0.2, none⟩ (by rw [hfold1, heq]) hc0
          (hbound c0 (by simp))
        exact this
      · have hccmem : cc ∈ c0 :: rest := by simp [hsp]
        refine ⟨c0 :: A, cc, B, by simp [hsp], ?_, ?_, hB⟩
        · exact hfind ⟨cc.1, cc.2, none⟩ (by rw [hfold1, heq])
            (Nat.le_trans hc0 (Nat.le_of_lt hlt)) (hbound cc hccmem)
        · intro a ha
          rcases List.mem_cons.1 ha with h | h
          · rw [h]; exact hlt
          · exact hA a h
    | Smallest =>
      rcases foldPolicy_smallest rest ⟨c0.1, c0.2, none⟩ hc0 hrestpos with
        ⟨heq, hall⟩ | ⟨A, cc, B, hsp, heq, hlt, hA, hB⟩
      · refine ⟨[], c0, rest, by simp, ?_, by simp, fun x hx => hall x hx⟩
        exact hfind ⟨c0.1, c0.2, none⟩ (by rw [hfold1, heq]) hc0 (hbound c0 (by simp))
      · have hccmem : cc ∈ c0 :: rest := by simp [hsp]
        refine ⟨c0 :: A, cc, B, by simp [hsp], ?_, ?_, hB⟩
        · exact hfind ⟨cc.1, cc.2, none⟩ (by rw [hfold1, heq])
            (hpos cc hccmem) (hbound cc hccmem)
        · intro a ha
          rcases List.mem_cons.1 ha with h | h
          · rw [h]; exact hlt
          · exact hA a h

/-- Claim C2 (counterexample to the claim as stated): the chain declares the
candidates (offset 40, length 0) and (offset 50, length 5); under
`Smallest` the claim requires the minimum-length candidate (length 0), but
the recorded zero length re-arms the "no candidate yet" sentinel test, so
the scanner returns the length-5 candidate instead.  (The first-seen
candidate is also not retained as a baseline under `Largest` when its
length is 0.) -/
theorem claim_c2_counterexample :
    find_largest_embedded_jpeg zeroThenFiveBuf 0 .Smallest 3
        = some (Except.ok ⟨50, 5, none⟩)
      ∧ (some (Except.ok (⟨50, 5, none⟩ : EmbeddedJpegInfo)) :
            Option (Except String EmbeddedJpegInfo))
          ≠ some (Except.ok (⟨40, 0, none⟩ : EmbeddedJpegInfo)) :=
  ⟨rfl, by simp⟩

/-- Witness for `claim_c2` at a concrete input: candidates of lengths 3 and
5 under `Largest` select the second one. -/
theorem claim_c2_witness :
    ∃ A c B, ([(34, 3), (50, 5)] : List (Nat × Nat)) = A ++ c :: B ∧
      find_largest_embedded_jpeg (buildChain true [(34, 3), (50, 5)] [0, 0, 0, 0, 0, 0, 0, 0])
          0 .Largest (2 + 0 + 1)
        = some (Except.ok ⟨c.1, c.2, none⟩) ∧
      (match FindJpegType.Largest with
       | .Largest => (∀ a ∈ A, a.2 < c.2) ∧ (∀ x ∈ B, x.2 ≤ c.2)
       | .Smallest => (∀ a ∈ A, c.2 < a.2) ∧ (∀ x ∈ B, c.2 ≤ x.2)) :=
  claim_c2 true .Largest [(34, 3), (50, 5)] [0, 0, 0, 0, 0, 0, 0, 0] 0
    (by simp) (by decide) (by decide) (by decide) (by norm_num)

/-! ## The final bound checks (claims C4, C3, C6) -/

theorem findPost_ok (tbuf : List Nat) (toff : Nat) (isLE : Bool) (ft : FindJpegType)
    (fuel : Nat) (info : EmbeddedJpegInfo)
    (h : findPost tbuf toff isLE ft fuel = some (Except.ok info)) :
    ∃ best : EmbeddedJpegInfo,
      walkIfds isLE tbuf ft fuel (readU32At isLE tbuf 4) emptyInfo = some (Except.ok best) ∧
      best ≠ emptyInfo ∧ best.offset + best.length ≤ tbuf.length ∧
      info = ⟨best.offset + toff, best.length, best.orientation⟩ := by
  unfold findPost at h
  cases hw : walkIfds isLE tbuf ft fuel (readU32At isLE tbuf 4) emptyInfo with
  | none => rw [hw] at h; cases h
  | some r =>
    cases r with
    | error e => rw [hw] at h; simp at h
    | ok best =>
      rw [hw] at h
      dsimp only at h
      by_cases h1 : best = emptyInfo
      · rw [if_pos h1] at h; simp at h
      · rw [if_neg h1] at h
        by_cases h2 : best.offset + best.length ≤ tbuf.length
        · rw [if_neg (not_not_intro h2)] at h
          simp only [Option.some.injEq, Except.ok.injEq] at h
          exact ⟨best, rfl, h1, h2, h.symm⟩
        · rw [if_pos h2] at h; simp at h

theorem find_ok (buf : List Nat) (toff : Nat) (ft : FindJpegType) (fuel : Nat)
    (info : EmbeddedJpegInfo)
    (h : find_largest_embedded_jpeg buf toff ft fuel = some (Except.ok info)) :
    8 ≤ (buf.drop toff).length ∧
    ∃ best : EmbeddedJpegInfo,
      best ≠ emptyInfo ∧ best.offset + best.length ≤ (buf.drop toff).length ∧
      info = ⟨best.offset + toff, best.length, best.orientation⟩ := by
  unfold find_largest_embedded_jpeg at h
  by_cases h8 : 8 ≤ (buf.drop toff).length
  · rw [if_neg (not_not_intro h8)] at h
    by_cases hle : (buf.drop toff).take 4 = [73, 73, 42, 0]
    · rw [if_pos hle] at h
      obtain ⟨best, _, h1, h2, h3⟩ := findPost_ok _ _ _ _ _ _ h
      exact ⟨h8, best, h1, h2, h3⟩
    · rw [if_neg hle] at h
      by_cases hbe : (buf.drop toff).take 4 = [77, 77, 0, 42]
      · rw [if_pos hbe] at h
        obtain ⟨best, _, h1, h2, h3⟩ := findPost_ok _ _ _ _ _ _ h
        exact ⟨h8, best, h1, h2, h3⟩
      · rw [if_neg hbe] at h; simp at h
  · rw [if_pos h8] at h; simp at h

/-- Claim C4 (confirmed): every `EmbeddedJpegInfo` the scanner returns
`Ok` satisfies `offset + length ≤ buffer length`, the offset being
buffer-relative (TIFF header offset added); and a winning candidate whose
region exceeds the buffer makes the scanner return the error "JPEG data
exceeds file size" instead — the model is a total function into `Except`,
never an abort or out-of-bounds read. -/
theorem claim_c4 :
    (∀ (buf : List Nat) (toff : Nat) (ft : FindJpegType) (fuel : Nat)
        (info : EmbeddedJpegInfo),
      find_largest_embedded_jpeg buf toff ft fuel = some (Except.ok info) →
      info.offset + info.length ≤ buf.length)
    ∧ (∀ (tbuf : List Nat) (toff : Nat) (isLE : Bool) (ft : FindJpegType) (fuel : Nat)
        (best : EmbeddedJpegInfo),
      walkIfds isLE tbuf ft fuel (readU32At isLE tbuf 4) emptyInfo
          = some (Except.ok best) →
      best ≠ emptyInfo → ¬ (best.offset + best.length ≤ tbuf.length) →
      findPost tbuf toff isLE ft fuel
        = some (Except.error "JPEG data exceeds file size")) := by
  constructor
  · intro buf toff ft fuel info h
    obtain ⟨h8, best, _, hb, hinfo⟩ := find_ok buf toff ft fuel info h
    rw [List.length_drop] at h8 hb
    rw [hinfo]
    dsimp only
    omega
  · intro tbuf toff isLE ft fuel best hw h1 h2
    unfold findPost
    rw [hw]
    dsimp only
    rw [if_neg h1, if_pos h2]

/-- Witness for `claim_c4`: the corrected spec-scenario buffer yields
`Ok {offset 16, length 5}` with `16 + 5 ≤ 38`, and a buffer declaring the
out-of-bounds region offset 100 / length 5 produces the bound-violated
error. -/
theorem claim_c4_witness :
    ((⟨16, 5, none⟩ : EmbeddedJpegInfo).offset + (⟨16, 5, none⟩ : EmbeddedJpegInfo).length
        ≤ scenarioBufTwoEntries.length)
      ∧ findPost (buildSingleIfd true [.ptr 100, .len 5] []) 0 true .Largest 2
          = some (Except.error "JPEG data exceeds file size") :=
  ⟨claim_c4.1 scenarioBufTwoEntries 0 .Largest 3 ⟨16, 5, none⟩ rfl,
   claim_c4.2 (buildSingleIfd true [.ptr 100, .len 5] []) 0 true .Largest 2 ⟨100, 5, none⟩
     rfl (by decide) (by decide)⟩

/-- Claim C3 (amended): for every scanner-produced info *of length at least 2*
and the extracted body of that region, the assembled output is exactly the
34-byte synthetic header (orientation defaulted to 1 when absent) followed
by `length - 2` bytes copied from the buffer starting at `offset + 2`.
The amendment adds the `2 ≤ length` hypothesis: the scanner can also
return regions of length 0 or 1, and on those the assembler's slice
`jpeg_buf[2..]` aborts instead of producing output. -/
theorem claim_c3 (buf : List Nat) (toff : Nat) (ft : FindJpegType) (fuel : Nat)
    (info : EmbeddedJpegInfo) (body : List Nat)
    (hfind : find_largest_embedded_jpeg buf toff ft fuel = some (Except.ok info))
    (h2 : 2 ≤ info.length)
    (hex : extract_jpeg buf info = some body) :
    get_jpeg_data body info.orientation
        = some (get_header_bytes (info.orientation.getD 1) ++
            ((buf.drop (info.offset + 2)).take (info.length - 2)))
      ∧ ((buf.drop (info.offset + 2)).take (info.length - 2)).length = info.length - 2 := by
  have hbound : info.offset + info.length ≤ buf.length := by
    obtain ⟨h8, best, _, hb, hinfo⟩ := find_ok buf toff ft fuel info hfind
    rw [List.length_drop] at h8 hb
    rw [hinfo]
    dsimp only
    omega
  have hbody : body = (buf.drop info.offset).take info.length := by
    unfold extract_jpeg at hex
    rw [if_pos hbound] at hex
    exact (Option.some.injEq _ _ ▸ hex).symm
  have hblen : body.length = info.length := by
    rw [hbody, List.length_take, List.length_drop]
    omega
  have hdrop2 : body.drop 2 = (buf.drop (info.offset + 2)).take (info.length - 2) := by
    rw [hbody, List.drop_take, List.drop_drop]
  constructor
  · unfold get_jpeg_data
    rw [if_pos (by omega : 2 ≤ body.length), hdrop2]
  · rw [List.length_take, List.length_drop]
    omega

/-- Claim C3 (counterexample to the claim as stated): the scanner produces an
info of length 1; extraction yields a 1-byte body, and the assembler,
asked to drop that body's first 2 bytes, aborts (`none`) instead of
producing the header-plus-body output the claim describes. -/
theorem claim_c3_counterexample :
    find_largest_embedded_jpeg len1Buf 0 .Largest 2 = some (Except.ok ⟨16, 1, none⟩)
      ∧ (extract_jpeg len1Buf ⟨16, 1, none⟩).bind (fun b => get_jpeg_data b none) = none :=
  ⟨rfl, rfl⟩

/-- Witness for `claim_c3` at a concrete input: the corrected scenario
buffer, whose declared region has length 5. -/
theorem claim_c3_witness :
    get_jpeg_data ((scenarioBufTwoEntries.drop 16).take 5) none
        = some (get_header_bytes 1 ++ ((scenarioBufTwoEntries.drop (16 + 2)).take (5 - 2)))
      ∧ ((scenarioBufTwoEntries.drop (16 + 2)).take (5 - 2)).length = 5 - 2 :=
  claim_c3 scenarioBufTwoEntries 0 .Largest 3 ⟨16, 5, none⟩
    ((scenarioBufTwoEntries.drop 16).take 5) rfl (by norm_num) rfl

/-- Claim C10 (code bug): the scanner accepts a declared region of length 1
(under `Largest`, any nonzero length wins over the empty sentinel), so the
returned info violates the claimed `length ≥ 2` invariant; the assembler
then slices `jpeg_buf[2..]` out of a 1-byte extraction, which aborts the
process (`none` in the model) instead of returning a per-file error. -/
theorem claim_c10 :
    find_largest_embedded_jpeg len1Buf 0 .Largest 2 = some (Except.ok ⟨16, 1, none⟩)
      ∧ ¬ (2 ≤ (⟨16, 1, none⟩ : EmbeddedJpegInfo).length)
      ∧ extract_jpeg len1Buf ⟨16, 1, none⟩ = some [0]
      ∧ get_jpeg_data [0] none = none
      ∧ process_file_bytes len1Buf .Largest 2 = none :=
  ⟨rfl, by decide, rfl, rfl, rfl⟩

/-! ## Claim C6: when the not-found error is reported -/

/-- Claim C6 (amended): once the IFD chain walk completes with running best
candidate `best`, the scanner reports the not-found error "No JPEG data
found" if and only if `best` still equals the all-zero `default()`
sentinel — which happens both when no pointer/length pair was recorded and
when the recorded pair was exactly offset 0 / length 0 with no orientation;
it reports "JPEG data exceeds file size" iff a non-sentinel candidate is
out of bounds, and returns `Ok` iff a non-sentinel candidate is in bounds. -/
theorem claim_c6 (tbuf : List Nat) (toff : Nat) (isLE : Bool) (ft : FindJpegType)
    (fuel : Nat) (best : EmbeddedJpegInfo)
    (hw : walkIfds isLE tbuf ft fuel (readU32At isLE tbuf 4) emptyInfo
      = some (Except.ok best)) :
    (findPost tbuf toff isLE ft fuel = some (Except.error "No JPEG data found")
        ↔ best = emptyInfo)
      ∧ (findPost tbuf toff isLE ft fuel = some (Except.error "JPEG data exceeds file size")
        ↔ best ≠ emptyInfo ∧ ¬ (best.offset + best.length ≤ tbuf.length))
      ∧ ((∃ info, findPost tbuf toff isLE ft fuel = some (Except.ok info))
        ↔ best ≠ emptyInfo ∧ best.offset + best.length ≤ tbuf.length) := by
  unfold findPost
  rw [hw]
  dsimp only
  have hne : ("No JPEG data found" : String) ≠ "JPEG data exceeds file size" := by decide
  by_cases h1 : best = emptyInfo
  · rw [if_pos h1]
    refine ⟨by simp [h1], ?_, ?_⟩
    · simp only [Option.some.injEq, Except.error.injEq]
      exact ⟨fun h => absurd h hne, fun h => absurd h1 h.1⟩
    · exact ⟨fun ⟨info, h⟩ => by simp at h, fun h => absurd h1 h.1⟩
  · rw [if_neg h1]
    by_cases h2 : best.offset + best.length ≤ tbuf.length
    · rw [if_neg (not_not_intro h2)]
      refine ⟨by simp [h1], by simp [h1, h2], by simp [h1, h2]⟩
    · rw [if_pos h2]
      refine ⟨?_, by simp [h1, h2], ?_⟩
      · simp only [Option.some.injEq, Except.error.injEq]
        exact ⟨fun h => absurd h hne.symm, fun h => absurd h h1⟩
      · exact ⟨fun ⟨info, h⟩ => by simp at h, fun h => absurd h.2 h2⟩

/-- Claim C6 (counterexample to the claim as stated): the single IFD records the
in-bounds pointer/length pair offset 0 / length 0, yet the scanner reports
"No JPEG data found", because the recorded candidate coincides with the
`default()` sentinel the emptiness test compares against. -/
theorem claim_c6_counterexample :
    find_largest_embedded_jpeg zeroCandBuf 0 .Smallest 2
        = some (Except.error "No JPEG data found")
      ∧ scanT .Smallest emptyInfo none none none [.ptr 0, .len 0] = ⟨0, 0, none⟩
      ∧ (0 : Nat) + 0 ≤ zeroCandBuf.length :=
  ⟨rfl, rfl, by decide⟩

/-- Witness for `claim_c6` at a concrete input: on `zeroCandBuf` the walk
completes with the sentinel as running best, so the first equivalence
forces the not-found error. -/
theorem claim_c6_witness :
    (findPost zeroCandBuf 0 true .Smallest 2 = some (Except.error "No JPEG data found")
        ↔ emptyInfo = emptyInfo)
      ∧ (findPost zeroCandBuf 0 true .Smallest 2
            = some (Except.error "JPEG data exceeds file size")
        ↔ emptyInfo ≠ emptyInfo ∧
            ¬ (emptyInfo.offset + emptyInfo.length ≤ zeroCandBuf.length))
      ∧ ((∃ info, findPost zeroCandBuf 0 true .Smallest 2 = some (Except.ok info))
        ↔ emptyInfo ≠ emptyInfo ∧
            emptyInfo.offset + emptyInfo.length ≤ zeroCandBuf.length) :=
  claim_c6 zeroCandBuf 0 true .Smallest 2 emptyInfo rfl

/-! ## Claim C5: the spec's literal scenario -/

/-- Claim C5 (counterexample to the claim as stated): on the literal scenario
bytes — whose IFD entry count field says one entry although two are laid
out — the scanner reads only the pointer entry, finds no complete pair,
then reads the next-IFD offset out of the second entry's bytes
(0x00030202), which fails the bounds check: the result is the error
"Invalid IFD offset", not the claimed `Ok {offset 0x10, length 5}`. -/
theorem claim_c5_counterexample :
    find_largest_embedded_jpeg scenarioBuf 0 .Largest 3
        = some (Except.error "Invalid IFD offset")
      ∧ find_largest_embedded_jpeg scenarioBuf 0 .Largest 3
          ≠ some (Except.ok ⟨0x10, 5, none⟩) := by
  refine ⟨rfl, ?_⟩
  intro h
  rw [show find_largest_embedded_jpeg scenarioBuf 0 .Largest 3
      = some (Except.error "Invalid IFD offset") from rfl] at h
  simp at h

/-- Claim C5 (amended): with the entry count corrected to two (`02 00`), the
scenario buffer yields `Ok {offset 0x10, length 5, orientation none}`
under either selection policy. -/
theorem claim_c5 :
    ∀ ft : FindJpegType,
      find_largest_embedded_jpeg scenarioBufTwoEntries 0 ft 3
        = some (Except.ok ⟨0x10, 5, none⟩) := by
  intro ft
  cases ft <;> rfl

/-! ## Claim C7: termination of the chain walk -/

theorem walk_stop (isLE : Bool) (tbuf : List Nat) (ft : FindJpegType) (fuel pos : Nat)
    (best : EmbeddedJpegInfo) (h : ifdNext isLE tbuf pos = none) :
    (walkIfds isLE tbuf ft (fuel + 1) pos best).isSome = true := by
  unfold ifdNext at h
  simp only [walkIfds]
  by_cases h0 : pos = 0
  · rw [if_pos h0]; rfl
  · rw [if_neg h0] at h
    rw [if_neg h0]
    by_cases hb1 : pos + 2 ≤ tbuf.length
    · rw [if_neg (not_not_intro hb1)] at h
      rw [if_neg (not_not_intro hb1)]
      by_cases hb2 : readU16At isLE tbuf pos * 12 ≤ tbuf.length - (pos + 2)
      · rw [if_neg (not_not_intro hb2)] at h
        rw [if_neg (not_not_intro hb2)]
        by_cases hb3 : 2 + readU16At isLE tbuf pos * 12 + 4 ≤ tbuf.length - pos
        · rw [if_neg (not_not_intro hb3)] at h
          cases h
        · rw [if_pos hb3] at h ⊢
          rfl
      · rw [if_pos hb2]; rfl
    · rw [if_pos hb1]; rfl

theorem walk_next (isLE : Bool) (tbuf : List Nat) (ft : FindJpegType) (fuel pos q : Nat)
    (best : EmbeddedJpegInfo) (h : ifdNext isLE tbuf pos = some q) :
    walkIfds isLE tbuf ft (fuel + 1) pos best
      = walkIfds isLE tbuf ft fuel q
          (scanEntries isLE tbuf ft best (pos + 2) none none none
            (readU16At isLE tbuf pos)) := by
  unfold ifdNext at h
  simp only [walkIfds]
  by_cases h0 : pos = 0
  · rw [if_pos h0] at h; cases h
  · rw [if_neg h0] at h ⊢
    by_cases hb1 : pos + 2 ≤ tbuf.length
    · rw [if_neg (not_not_intro hb1)] at h ⊢
      by_cases hb2 : readU16At isLE tbuf pos * 12 ≤ tbuf.length - (pos + 2)
      · rw [if_neg (not_not_intro hb2)] at h ⊢
        by_cases hb3 : 2 + readU16At isLE tbuf pos * 12 + 4 ≤ tbuf.length - pos
        · rw [if_neg (not_not_intro hb3)] at h ⊢
          simp only [Option.some.injEq] at h
          rw [h]
        · rw [if_pos hb3] at h; cases h
      · rw [if_pos hb2] at h; cases h
    · rw [if_pos hb1] at h; cases h

/-- Claim C7 (amended): the chain walk terminates — with an `Ok` or error result
— whenever the iterated next-IFD-offset map reaches a stopping point
(offset zero or a failed bounds check) within `n` link traversals; it is
*not* guaranteed to terminate on every buffer, as the counterexample's
cyclic chain shows. -/
theorem claim_c7 (isLE : Bool) (tbuf : List Nat) (ft : FindJpegType) :
    ∀ (n pos : Nat) (best : EmbeddedJpegInfo), chainStops isLE tbuf n pos →
      (walkIfds isLE tbuf ft (n + 1) pos best).isSome = true := by
  intro n
  induction n with
  | zero =>
    intro pos best h
    exact walk_stop isLE tbuf ft 0 pos best h
  | succ k ih =>
    intro pos best h
    unfold chainStops at h
    cases hq : ifdNext isLE tbuf pos with
    | none => exact walk_stop isLE tbuf ft (k + 1) pos best hq
    | some q =>
      rw [hq] at h
      rw [walk_next isLE tbuf ft (k + 1) pos q best hq]
      exact ih q _ h

/-- Claim C7 (counterexample to the claim as stated): on `cyclicBuf` the next-IFD
offset at position 8 is 8 again, so the walk revisits the same IFD forever:
for every iteration bound the loop is still running, i.e. the Rust `while`
loop never terminates on this input. -/
theorem claim_c7_counterexample :
    ifdNext true cyclicBuf 8 = some 8
      ∧ ∀ (ft : FindJpegType) (fuel : Nat),
          find_largest_embedded_jpeg cyclicBuf 0 ft fuel = none := by
  refine ⟨rfl, ?_⟩
  have hwalk : ∀ (fuel : Nat) (ft : FindJpegType) (b : EmbeddedJpegInfo),
      walkIfds true cyclicBuf ft fuel 8 b = none := by
    intro fuel
    induction fuel with
    | zero => intro ft b; rfl
    | succ k ih =>
      intro ft b
      rw [walk_next true cyclicBuf ft k 8 8 b rfl]
      exact ih ft b
  intro ft fuel
  have h1 : find_largest_embedded_jpeg cyclicBuf 0 ft fuel
      = findPost cyclicBuf 0 true ft fuel := rfl
  rw [h1]
  unfold findPost
  rw [show readU32At true cyclicBuf 4 = 8 from rfl, hwalk fuel ft emptyInfo]

/-- Witness for `claim_c7`: the corrected scenario buffer's chain stops
after one traversal (its single IFD links to offset 0). -/
theorem claim_c7_witness :
    (walkIfds true scenarioBufTwoEntries .Largest (1 + 1) 8 emptyInfo).isSome = true :=
  claim_c7 true scenarioBufTwoEntries .Largest 1 8 emptyInfo rfl

/-! ## Claim C8: header-location fallback -/

/-- Claim C8 (amended): for every buffer of at least 4 bytes that neither starts
with the little-endian TIFF magic nor contains the `Exif\0\0` marker
anywhere, the header-location step returns its not-found error (no abort),
and the pipeline falls back to treating the buffer as a TIFF stream at
offset 0, proceeding to the scanner's own magic and bounds validation.
The amendment adds the 4-byte minimum: on a shorter buffer the slice
`&raw_buf[0..4]` aborts the process before any fallback can happen. -/
theorem claim_c8 (buf : List Nat) (ft : FindJpegType) (fuel : Nat)
    (h4 : 4 ≤ buf.length)
    (hmagic : buf.take 4 ≠ [73, 73, 42, 0])
    (hexif : ∀ p, p < buf.length → (buf.drop p).take 6 ≠ [69, 120, 105, 102, 0, 0]) :
    find_tiff_header_offset buf = some none
      ∧ process_file_bytes buf ft fuel = pipeline_after_header buf 0 ft fuel := by
  have hfe : find_exif buf = none := by
    unfold find_exif
    rw [List.find?_eq_none]
    intro p hp
    rw [List.mem_range] at hp
    simp [hexif p hp]
  have h1 : find_tiff_header_offset buf = some none := by
    unfold find_tiff_header_offset
    rw [if_neg (by omega), if_neg hmagic, hfe]
  refine ⟨h1, ?_⟩
  unfold process_file_bytes
  rw [h1]
  rfl

/-- Claim C8 (counterexample to the claim as stated): a 3-byte buffer (no TIFF
magic, no Exif marker) makes the header-location step slice
`&raw_buf[0..4]` out of bounds — the process aborts (`none`) instead of
falling back to offset 0. -/
theorem claim_c8_counterexample :
    find_tiff_header_offset [0, 0, 0] = none
      ∧ process_file_bytes [0, 0, 0] .Largest 1 = none := by
  refine ⟨rfl, ?_⟩
  unfold process_file_bytes
  rw [show find_tiff_header_offset [0, 0, 0] = none from rfl]

/-- Witness for `claim_c8`: a 4-byte all-zero buffer. -/
theorem claim_c8_witness :
    find_tiff_header_offset [0, 0, 0, 0] = some none
      ∧ process_file_bytes [0, 0, 0, 0] .Largest 1
          = pipeline_after_header [0, 0, 0, 0] 0 .Largest 1 :=
  claim_c8 [0, 0, 0, 0] .Largest 1 (by norm_num) (by decide) (by decide)

/-! ## Claim C9: the extension filter -/

/-- Claim C9 (amended): a file extension is accepted if and only if it equals one
of the default extensions verbatim (lowercase), or the fully-uppercased
form of one of them, or the extra extension exactly as configured.  The
claimed *case-insensitive* comparison does not hold: the built set contains
only the lowercase and all-uppercase spellings, so mixed-case variants
(e.g. "Arw") are rejected. -/
theorem claim_c9 (extra : Option String) (ext : String) :
    accepts_extension_code extra ext ↔
      (ext ∈ default_extensions ∨ ext ∈ default_extensions.map strUpper ∨
        extra = some ext) := by
  unfold accepts_extension_code valid_extensions
  rw [List.mem_append, List.mem_flatMap]
  constructor
  · rintro (⟨e, he, hx⟩ | hx)
    · rcases List.mem_cons.1 hx with h | h
      · exact Or.inl (h ▸ he)
      rcases List.mem_cons.1 h with h | h
      · exact Or.inr (Or.inl (List.mem_map.2 ⟨e, he, h.symm⟩))
      · cases h
    · cases extra with
      | none => cases hx
      | some s =>
        rcases List.mem_cons.1 hx with h | h
        · exact Or.inr (Or.inr (by rw [h]))
        · cases h
  · rintro (h | h | h)
    · exact Or.inl ⟨ext, h, by simp⟩
    · obtain ⟨e, he, hx⟩ := List.mem_map.1 h
      exact Or.inl ⟨e, he, by simp [hx]⟩
    · rw [h]
      exact Or.inr (by simp)

/-- Claim C9 (counterexample to the claim as stated): "Arw" matches "arw"
case-insensitively (so the claim accepts it), but the code's set holds only
"arw" and "ARW", so "Arw" is rejected. -/
theorem claim_c9_counterexample :
    accepts_extension_spec none "Arw" ∧ ¬ accepts_extension_code none "Arw" := by
  constructor
  · exact Or.inl (by decide)
  · decide

end JpgFromRaw
